import Mathlib

/-!
Verification of the client-side hybrid encryption core of the CMS frontend
(`src/utils/encryptionUtil.ts`, `src/services/userService.ts` encryption
service, and the standalone RSA utility).

Strings are modelled as `List Char` (abbreviated `Str`); byte buffers as
`List Nat` with bytes `< 256`.  Browser platform primitives used by the code
(`btoa`/`atob`, `TextEncoder`/`TextDecoder`, `JSON.stringify`/`JSON.parse`,
`crypto.subtle`) are not part of the repository; they are modelled here by
concrete executable functions that are faithful to the relevant part of their
specified behaviour, each documented at its definition.  Functions of the
repository itself are translated statement by statement from the TypeScript
source.
-/

namespace CMS

abbrev Str := List Char

/-! ### Base64: model of the browser `btoa` / `atob` primitives -/

/-- The 64-character base64 alphabet used by `btoa`/`atob`. -/
def b64Chars : Str :=
  "ABCDEFGHIJKLMNOPQRSTUVWXYZabcdefghijklmnopqrstuvwxyz0123456789+/".data

/-- Character for a sextet value (`btoa` direction). -/
def sextetChar (n : Nat) : Char := b64Chars.getD n 'A'

/-- Sextet value of a base64 character (`atob` direction); `none` for a
character outside the alphabet. -/
def charSextet (c : Char) : Option Nat := b64Chars.findIdx? (fun d => d = c)

/-- Models `btoa(String.fromCharCode(...bytes))`: base64-encode a byte list,
three bytes to four characters, padding the final group with `=`. -/
def btoa : List Nat → Str
  | [] => []
  | [b0] => [sextetChar (b0 / 4), sextetChar (b0 % 4 * 16), '=', '=']
  | [b0, b1] => [sextetChar (b0 / 4), sextetChar (b0 % 4 * 16 + b1 / 16),
      sextetChar (b1 % 16 * 4), '=']
  | b0 :: b1 :: b2 :: rest =>
      sextetChar (b0 / 4) :: sextetChar (b0 % 4 * 16 + b1 / 16) ::
      sextetChar (b1 % 16 * 4 + b2 / 64) :: sextetChar (b2 % 64) :: btoa rest

/-- ASCII whitespace stripped by forgiving-base64 decoding (`atob`). -/
def isAsciiWs (c : Char) : Bool :=
  c = ' ' || c = '\t' || c = '\n' || c = '\r' || c.toNat = 12

/-- Decode whitespace-free base64 in groups of four characters; trailing `=`
padding (or an unpadded final group of two or three characters) is accepted,
`=` anywhere else or a character outside the alphabet is an error. -/
def atobGroups : Str → Option (List Nat)
  | [] => some []
  | [c0, c1] =>
      match charSextet c0, charSextet c1 with
      | some s0, some s1 => some [s0 * 4 + s1 / 16]
      | _, _ => none
  | [c0, c1, c2] =>
      match charSextet c0, charSextet c1, charSextet c2 with
      | some s0, some s1, some s2 =>
          some [s0 * 4 + s1 / 16, s1 % 16 * 16 + s2 / 4]
      | _, _, _ => none
  | c0 :: c1 :: c2 :: c3 :: rest =>
      match charSextet c0, charSextet c1 with
      | some s0, some s1 =>
          if c2 = '=' then
            if c3 = '=' ∧ rest = [] then some [s0 * 4 + s1 / 16] else none
          else
            match charSextet c2 with
            | some s2 =>
                if c3 = '=' then
                  if rest = [] then
                    some [s0 * 4 + s1 / 16, s1 % 16 * 16 + s2 / 4]
                  else none
                else
                  match charSextet c3, atobGroups rest with
                  | some s3, some tl =>
                      some ((s0 * 4 + s1 / 16) :: (s1 % 16 * 16 + s2 / 4) ::
                            (s2 % 4 * 64 + s3) :: tl)
                  | _, _ => none
            | none => none
      | _, _ => none
  | _ => none

/-- Models `atob`: forgiving-base64 decode (ASCII whitespace stripped first),
returning the decoded bytes or `none` where the browser throws. -/
def atob (s : Str) : Option (List Nat) :=
  atobGroups (s.filter (fun c => !isAsciiWs c))

theorem charSextet_sextetChar : ∀ i < 64, charSextet (sextetChar i) = some i := by
  decide

theorem sextetChar_ne_pad : ∀ i < 64, sextetChar i ≠ '=' := by decide

theorem sextetChar_not_ws : ∀ i < 64, isAsciiWs (sextetChar i) = false := by decide

theorem btoa_no_ws (bs : List Nat) (hb : ∀ b ∈ bs, b < 256) :
    (btoa bs).filter (fun c => !isAsciiWs c) = (btoa bs) := by
  induction bs using btoa.induct with
  | case1 => rfl
  | case2 b0 =>
      have h0 : b0 < 256 := hb b0 (by simp)
      simp [btoa, List.filter, sextetChar_not_ws (b0 / 4) (by omega),
        sextetChar_not_ws (b0 % 4 * 16) (by omega)]
      decide
  | case3 b0 b1 =>
      have h0 : b0 < 256 := hb b0 (by simp)
      have h1 : b1 < 256 := hb b1 (by simp)
      simp [btoa, List.filter, sextetChar_not_ws (b0 / 4) (by omega),
        sextetChar_not_ws (b0 % 4 * 16 + b1 / 16) (by omega),
        sextetChar_not_ws (b1 % 16 * 4) (by omega)]
      decide
  | case4 b0 b1 b2 rest ih =>
      have h0 : b0 < 256 := hb b0 (by simp)
      have h1 : b1 < 256 := hb b1 (by simp)
      have h2 : b2 < 256 := hb b2 (by simp)
      have ih' := ih (fun b hbm => hb b (by simp [hbm]))
      simp [btoa, List.filter, sextetChar_not_ws (b0 / 4) (by omega),
        sextetChar_not_ws (b0 % 4 * 16 + b1 / 16) (by omega),
        sextetChar_not_ws (b1 % 16 * 4 + b2 / 64) (by omega),
        sextetChar_not_ws (b2 % 64) (by omega)]
      simpa [List.filter] using ih'

theorem atobGroups_btoa (bs : List Nat) (hb : ∀ b ∈ bs, b < 256) :
    atobGroups (btoa bs) = some bs := by
  induction bs using btoa.induct with
  | case1 => rfl
  | case2 b0 =>
      have h0 : b0 < 256 := hb b0 (by simp)
      simp only [btoa, atobGroups,
        charSextet_sextetChar (b0 / 4) (by omega),
        charSextet_sextetChar (b0 % 4 * 16) (by omega)]
      rw [if_pos trivial, if_pos ⟨trivial, trivial⟩]
      congr 1
      congr 1
      omega
  | case3 b0 b1 =>
      have h0 : b0 < 256 := hb b0 (by simp)
      have h1 : b1 < 256 := hb b1 (by simp)
      simp only [btoa, atobGroups,
        charSextet_sextetChar (b0 / 4) (by omega),
        charSextet_sextetChar (b0 % 4 * 16 + b1 / 16) (by omega),
        charSextet_sextetChar (b1 % 16 * 4) (by omega)]
      rw [if_neg (sextetChar_ne_pad (b1 % 16 * 4) (by omega))]
      rw [if_pos trivial, if_pos trivial]
      congr 1
      congr 1
      · omega
      congr 1
      omega
  | case4 b0 b1 b2 rest ih =>
      have h0 : b0 < 256 := hb b0 (by simp)
      have h1 : b1 < 256 := hb b1 (by simp)
      have h2 : b2 < 256 := hb b2 (by simp)
      have ih' := ih (fun b hbm => hb b (by simp [hbm]))
      simp only [btoa, atobGroups,
        charSextet_sextetChar (b0 / 4) (by omega),
        charSextet_sextetChar (b0 % 4 * 16 + b1 / 16) (by omega),
        charSextet_sextetChar (b1 % 16 * 4 + b2 / 64) (by omega),
        charSextet_sextetChar (b2 % 64) (by omega), ih']
      rw [if_neg (sextetChar_ne_pad (b1 % 16 * 4 + b2 / 64) (by omega)),
        if_neg (sextetChar_ne_pad (b2 % 64) (by omega))]
      congr 1
      congr 1
      · omega
      congr 1
      · omega
      congr 1
      omega

/-- Round trip of the base64 model: decoding an encoding recovers the bytes. -/
theorem atob_btoa (bs : List Nat) (hb : ∀ b ∈ bs, b < 256) :
    atob (btoa bs) = some bs := by
  unfold atob
  rw [btoa_no_ws bs hb, atobGroups_btoa bs hb]

/-- Length of the base64 model's output is determined by the input length. -/
theorem btoa_length (bs : List Nat) :
    (btoa bs).length = (bs.length + 2) / 3 * 4 := by
  induction bs using btoa.induct with
  | case1 => rfl
  | case2 b0 => simp [btoa]
  | case3 b0 b1 => simp [btoa]
  | case4 b0 b1 b2 rest ih =>
      simp only [btoa, List.length_cons, ih]
      omega

/-! ### UTF-8: model of `TextEncoder` / `TextDecoder` -/

/-- UTF-8 encoding of one scalar value (`TextEncoder` on one character). -/
def utf8EncodeChar (c : Char) : List Nat :=
  let n := c.toNat
  if n < 0x80 then [n]
  else if n < 0x800 then [0xC0 + n / 64, 0x80 + n % 64]
  else if n < 0x10000 then [0xE0 + n / 4096, 0x80 + n / 64 % 64, 0x80 + n % 64]
  else [0xF0 + n / 262144, 0x80 + n / 4096 % 64, 0x80 + n / 64 % 64,
        0x80 + n % 64]

/-- Models `new TextEncoder().encode(s)`: UTF-8 bytes of the string. -/
def utf8Encode : Str → List Nat
  | [] => []
  | c :: cs => utf8EncodeChar c ++ utf8Encode cs

/-- The U+FFFD replacement character emitted by a non-fatal `TextDecoder`
on malformed input. -/
def replChar : Char := Char.ofNat 0xFFFD

/-- UTF-8 continuation byte test. -/
def isCont (b : Nat) : Bool := 0x80 ≤ b && b < 0xC0

/-- One decoding step of the UTF-8 decoder: given a lead byte and the bytes
after it, the decoded character (U+FFFD on a malformed sequence) and how many
continuation bytes are consumed. -/
def utf8Step (b : Nat) (rest : List Nat) : Char × Nat :=
  if b < 0x80 then (Char.ofNat b, 0)
  else if b < 0xC2 then (replChar, 0)
  else if b < 0xE0 then
    if rest.length < 1 then (replChar, 0)
    else
      let b1 := rest.getD 0 0
      if isCont b1 then (Char.ofNat ((b - 0xC0) * 64 + (b1 - 0x80)), 1)
      else (replChar, 1)
  else if b < 0xF0 then
    if rest.length < 2 then (replChar, rest.length)
    else
      let b1 := rest.getD 0 0
      let b2 := rest.getD 1 0
      if isCont b1 && isCont b2 then
        let n := (b - 0xE0) * 4096 + (b1 - 0x80) * 64 + (b2 - 0x80)
        if n < 0x800 ∨ (0xD800 ≤ n ∧ n < 0xE000) then (replChar, 2)
        else (Char.ofNat n, 2)
      else (replChar, 2)
  else if b < 0xF5 then
    if rest.length < 3 then (replChar, rest.length)
    else
      let b1 := rest.getD 0 0
      let b2 := rest.getD 1 0
      let b3 := rest.getD 2 0
      if isCont b1 && isCont b2 && isCont b3 then
        let n := (b - 0xF0) * 262144 + (b1 - 0x80) * 4096 + (b2 - 0x80) * 64 +
                 (b3 - 0x80)
        if n < 0x10000 ∨ 0x110000 ≤ n then (replChar, 3)
        else (Char.ofNat n, 3)
      else (replChar, 3)
  else (replChar, 0)

/-- Fuel-driven UTF-8 decoding loop; each step consumes at least the lead
byte, so fuel equal to the byte count suffices. -/
def utf8DecodeF : Nat → List Nat → Str
  | 0, _ => []
  | _ + 1, [] => []
  | f + 1, b :: rest =>
      let st := utf8Step b rest
      st.1 :: utf8DecodeF f (rest.drop st.2)

/-- Models `new TextDecoder().decode(bytes)` (non-fatal mode): decodes UTF-8,
emitting U+FFFD for malformed sequences instead of throwing.  On a malformed
sequence the lead byte together with the inspected continuation bytes is
replaced by one U+FFFD (a simplification of the decoder's resynchronisation,
visible only on inputs that are not valid UTF-8; every theorem below decodes
valid UTF-8 only). -/
def utf8Decode (bs : List Nat) : Str := utf8DecodeF bs.length bs

/-- A `Char`'s code point is a Unicode scalar value. -/
theorem char_valid (c : Char) :
    c.toNat < 0xD800 ∨ (0xE000 ≤ c.toNat ∧ c.toNat < 0x110000) := by
  have h := c.valid
  unfold UInt32.isValidChar Nat.isValidChar at h
  exact h

/-- UTF-8 bytes are bytes. -/
theorem utf8EncodeChar_lt (c : Char) : ∀ b ∈ utf8EncodeChar c, b < 256 := by
  have hv := char_valid c
  intro b hbm
  unfold utf8EncodeChar at hbm
  by_cases h1 : c.toNat < 0x80
  · simp [h1] at hbm
    omega
  · by_cases h2 : c.toNat < 0x800
    · simp [h1, h2] at hbm
      rcases hbm with h | h <;> omega
    · by_cases h3 : c.toNat < 0x10000
      · simp [h1, h2, h3] at hbm
        rcases hbm with h | h | h <;> omega
      · simp [h1, h2, h3] at hbm
        rcases hbm with h | h | h | h <;> omega

theorem utf8Encode_lt (s : Str) : ∀ b ∈ utf8Encode s, b < 256 := by
  induction s with
  | nil => simp [utf8Encode]
  | cons c cs ih =>
      intro b hbm
      simp only [utf8Encode, List.mem_append] at hbm
      rcases hbm with h | h
      · exact utf8EncodeChar_lt c b h
      · exact ih b h

/-- Decoding with more fuel than bytes is independent of the exact fuel. -/
theorem utf8DecodeF_irrel (f : Nat) : ∀ (g : Nat) (bs : List Nat),
    bs.length ≤ f → bs.length ≤ g → utf8DecodeF f bs = utf8DecodeF g bs := by
  induction f with
  | zero =>
      intro g bs h1 h2
      have : bs = [] := List.eq_nil_of_length_eq_zero (by omega)
      subst this
      cases g <;> rfl
  | succ f ih =>
      intro g bs h1 h2
      cases bs with
      | nil => cases g <;> rfl
      | cons b rest =>
          cases g with
          | zero => simp at h2
          | succ g' =>
              simp only [utf8DecodeF]
              congr 1
              apply ih
              · simp only [List.length_drop]
                simp only [List.length_cons] at h1
                omega
              · simp only [List.length_drop]
                simp only [List.length_cons] at h2
                omega

/-- Decoding one encoded character at the head of a byte stream yields that
character and continues with the remainder. -/
theorem utf8Decode_encodeChar_aux (c : Char) (t : List Nat) :
    utf8DecodeF (utf8EncodeChar c ++ t).length (utf8EncodeChar c ++ t)
      = c :: utf8DecodeF t.length t := by
  have hv := char_valid c
  have hofn : Char.ofNat c.toNat = c := Char.ofNat_toNat c
  unfold utf8EncodeChar
  by_cases h1 : c.toNat < 0x80
  · rw [if_pos h1]
    have hs : utf8Step c.toNat t = (Char.ofNat c.toNat, 0) := by
      unfold utf8Step
      rw [if_pos h1]
    simp only [List.cons_append, List.nil_append, List.length_cons,
      utf8DecodeF]
    simp [hs, hofn]
  · by_cases h2 : c.toNat < 0x800
    · rw [if_neg h1, if_pos h2]
      have hs : utf8Step (0xC0 + c.toNat / 64) ((0x80 + c.toNat % 64) :: t)
          = (c, 1) := by
        unfold utf8Step
        rw [if_neg (by omega), if_neg (by omega), if_pos (by omega)]
        rw [if_neg (by simp)]
        simp only [List.getD_cons_zero]
        rw [if_pos (by simp [isCont]; omega)]
        have he : (0xC0 + c.toNat / 64 - 0xC0) * 64 +
            (0x80 + c.toNat % 64 - 0x80) = c.toNat := by omega
        rw [he, hofn]
      simp only [List.cons_append, List.nil_append, List.length_cons,
        utf8DecodeF]
      simp [hs]
      apply utf8DecodeF_irrel <;> omega
    · by_cases h3 : c.toNat < 0x10000
      · rw [if_neg h1, if_neg h2, if_pos h3]
        have hs : utf8Step (0xE0 + c.toNat / 4096)
            ((0x80 + c.toNat / 64 % 64) :: (0x80 + c.toNat % 64) :: t)
            = (c, 2) := by
          unfold utf8Step
          rw [if_neg (by omega), if_neg (by omega), if_neg (by omega),
            if_pos (by omega)]
          rw [if_neg (by simp)]
          simp only [List.getD_cons_zero, List.getD_cons_succ]
          rw [if_pos (by simp [isCont]; omega)]
          have he : (0xE0 + c.toNat / 4096 - 0xE0) * 4096 +
              (0x80 + c.toNat / 64 % 64 - 0x80) * 64 +
              (0x80 + c.toNat % 64 - 0x80) = c.toNat := by omega
          rw [he]
          rw [if_neg (by omega), hofn]
        simp only [List.cons_append, List.nil_append, List.length_cons,
          utf8DecodeF]
        simp [hs]
        apply utf8DecodeF_irrel <;> omega
      · rw [if_neg h1, if_neg h2, if_neg h3]
        have hs : utf8Step (0xF0 + c.toNat / 262144)
            ((0x80 + c.toNat / 4096 % 64) :: (0x80 + c.toNat / 64 % 64) ::
              (0x80 + c.toNat % 64) :: t) = (c, 3) := by
          unfold utf8Step
          rw [if_neg (by omega), if_neg (by omega), if_neg (by omega),
            if_neg (by omega), if_pos (by omega)]
          rw [if_neg (by simp)]
          simp only [List.getD_cons_zero, List.getD_cons_succ]
          rw [if_pos (by simp [isCont]; omega)]
          have he : (0xF0 + c.toNat / 262144 - 0xF0) * 262144 +
              (0x80 + c.toNat / 4096 % 64 - 0x80) * 4096 +
              (0x80 + c.toNat / 64 % 64 - 0x80) * 64 +
              (0x80 + c.toNat % 64 - 0x80) = c.toNat := by omega
          rw [he]
          rw [if_neg (by omega), hofn]
        simp only [List.cons_append, List.nil_append, List.length_cons,
          utf8DecodeF]
        simp [hs]
        apply utf8DecodeF_irrel <;> omega

/-- Round trip of the UTF-8 model: decoding an encoding recovers the string. -/
theorem utf8Decode_encode (s : Str) : utf8Decode (utf8Encode s) = s := by
  have key : ∀ (s : Str) (t : List Nat),
      utf8DecodeF (utf8Encode s ++ t).length (utf8Encode s ++ t)
        = s ++ utf8DecodeF t.length t := by
    intro s
    induction s with
    | nil => intro t; simp [utf8Encode]
    | cons c cs ih =>
        intro t
        have hrw : utf8Encode (c :: cs) ++ t
            = utf8EncodeChar c ++ (utf8Encode cs ++ t) := by
          simp [utf8Encode]
        rw [hrw, utf8Decode_encodeChar_aux, ih]
        rfl
  have hk := key s []
  rw [List.append_nil] at hk
  unfold utf8Decode
  rw [hk]
  simp [utf8DecodeF]

/-- Length of one character's UTF-8 encoding. -/
theorem utf8EncodeChar_length (c : Char) :
    (utf8EncodeChar c).length =
      if c.toNat < 0x80 then 1 else if c.toNat < 0x800 then 2
      else if c.toNat < 0x10000 then 3 else 4 := by
  unfold utf8EncodeChar
  by_cases h1 : c.toNat < 0x80
  · simp [h1]
  · by_cases h2 : c.toNat < 0x800
    · simp [h1, h2]
    · by_cases h3 : c.toNat < 0x10000
      · simp [h1, h2, h3]
      · simp [h1, h2, h3]

/-! ### JSON: model of `JSON.stringify` / `JSON.parse`

JavaScript values that survive `JSON.stringify` are modelled by the mutual
inductive family `Json` / `JsonArr` / `JsonObj`.  Numbers are modelled as
integers (the decimal formatting of fractional JavaScript numbers is a
floating-point concern outside this model); object key order is the
enumeration order of the object. -/

mutual
inductive Json where
  | null : Json
  | bool (b : Bool) : Json
  | num (n : Int) : Json
  | str (s : Str) : Json
  | arr (xs : JsonArr) : Json
  | obj (kvs : JsonObj) : Json
inductive JsonArr where
  | nil : JsonArr
  | cons (hd : Json) (tl : JsonArr) : JsonArr
inductive JsonObj where
  | nil : JsonObj
  | cons (k : Str) (v : Json) (tl : JsonObj) : JsonObj
end

/-- Lowercase hexadecimal digit, as emitted in `\u00xx` escapes. -/
def hexDigit (n : Nat) : Char := "0123456789abcdef".data.getD n '0'

/-- Escaping of one string character by `JSON.stringify`: the two-character
escapes for quote, backslash and the common control characters, `\u00xx` for
the remaining control characters, and the character itself otherwise. -/
def escapeChar (c : Char) : Str :=
  if c = '"' then ['\\', '"']
  else if c = '\\' then ['\\', '\\']
  else if c = '\n' then ['\\', 'n']
  else if c = '\r' then ['\\', 'r']
  else if c = '\t' then ['\\', 't']
  else if c.toNat = 8 then ['\\', 'b']
  else if c.toNat = 12 then ['\\', 'f']
  else if c.toNat < 32 then
    ['\\', 'u', '0', '0', hexDigit (c.toNat / 16), hexDigit (c.toNat % 16)]
  else [c]

def escapeStr : Str → Str
  | [] => []
  | c :: cs => escapeChar c ++ escapeStr cs

/-- Decimal digits of a natural number, most significant first; the first
argument is recursion fuel (`n + 1` always suffices). -/
def natDigitsF : Nat → Nat → Str
  | 0, _ => []
  | f + 1, n =>
      if n < 10 then [Nat.digitChar n]
      else natDigitsF f (n / 10) ++ [Nat.digitChar (n % 10)]

def natDigits (n : Nat) : Str := natDigitsF (n + 1) n

/-- Decimal notation of an integer, as `String(n)` formats it. -/
def intStr : Int → Str
  | Int.ofNat m => natDigits m
  | Int.negSucc m => '-' :: natDigits (m + 1)

mutual
/-- Models `JSON.stringify` (restricted to integer numbers): compact JSON
text, no whitespace. -/
def stringify : Json → Str
  | .null => 'n' :: 'u' :: ['l', 'l']
  | .bool true => 't' :: 'r' :: ['u', 'e']
  | .bool false => 'f' :: 'a' :: ['l', 's', 'e']
  | .num n => intStr n
  | .str s => '"' :: escapeStr s ++ ['"']
  | .arr .nil => ['[', ']']
  | .arr (.cons x tl) => '[' :: stringifyArr (.cons x tl) ++ [']']
  | .obj .nil => ['{', '}']
  | .obj (.cons k v tl) => '{' :: stringifyObj (.cons k v tl) ++ ['}']
/-- Comma-joined stringification of array elements. -/
def stringifyArr : JsonArr → Str
  | .nil => []
  | .cons x .nil => stringify x
  | .cons x (.cons y tl) => stringify x ++ ',' :: stringifyArr (.cons y tl)
/-- Comma-joined stringification of object members (`"key":value`). -/
def stringifyObj : JsonObj → Str
  | .nil => []
  | .cons k v .nil => '"' :: escapeStr k ++ '"' :: ':' :: stringify v
  | .cons k v (.cons k2 v2 tl) =>
      ('"' :: escapeStr k ++ '"' :: ':' :: stringify v) ++
        ',' :: stringifyObj (.cons k2 v2 tl)
end

/-- Decimal digit test used by the parser. -/
def isDigitC (c : Char) : Bool := 48 ≤ c.toNat && c.toNat ≤ 57

/-- Value of a hexadecimal digit character. -/
def hexVal (c : Char) : Option Nat :=
  if 48 ≤ c.toNat ∧ c.toNat ≤ 57 then some (c.toNat - 48)
  else if 97 ≤ c.toNat ∧ c.toNat ≤ 102 then some (c.toNat - 87)
  else if 65 ≤ c.toNat ∧ c.toNat ≤ 70 then some (c.toNat - 55)
  else none

/-- Prepend a character to the string of a string-parser result. -/
def consStr (c : Char) : Option (Str × Str) → Option (Str × Str)
  | some (s, r) => some (c :: s, r)
  | none => none

/-- Parse the body of a JSON string literal after the opening quote, up to
and including the closing quote, resolving escapes.  (A `\\u` escape whose
code is not a Unicode scalar value is rejected: lone surrogates are not
representable in this model's strings.) -/
def parseStringBody : Str → Option (Str × Str)
  | [] => none
  | '"' :: rest => some ([], rest)
  | '\\' :: e :: rest =>
      if e = '"' then consStr '"' (parseStringBody rest)
      else if e = '\\' then consStr '\\' (parseStringBody rest)
      else if e = '/' then consStr '/' (parseStringBody rest)
      else if e = 'n' then consStr '\n' (parseStringBody rest)
      else if e = 't' then consStr '\t' (parseStringBody rest)
      else if e = 'r' then consStr '\r' (parseStringBody rest)
      else if e = 'b' then consStr (Char.ofNat 8) (parseStringBody rest)
      else if e = 'f' then consStr (Char.ofNat 12) (parseStringBody rest)
      else if e = 'u' then
        match rest with
        | h1 :: h2 :: h3 :: h4 :: rest2 =>
            match hexVal h1, hexVal h2, hexVal h3, hexVal h4 with
            | some v1, some v2, some v3, some v4 =>
                let n := v1 * 4096 + v2 * 256 + v3 * 16 + v4
                if n.isValidChar then
                  consStr (Char.ofNat n) (parseStringBody rest2)
                else none
            | _, _, _, _ => none
        | _ => none
      else none
  | c :: rest =>
      if c.toNat < 32 then none else consStr c (parseStringBody rest)

/-- Numeric value of a digit string (most significant first). -/
def natFromDigits (ds : Str) : Nat :=
  ds.foldl (fun a c => a * 10 + (c.toNat - 48)) 0

/-- Parse a run of decimal digits; fails on an empty run.  (The JSON grammar's
rejection of redundant leading zeros is not modelled; `stringify` never emits
them.) -/
def parseNatDigits (s : Str) : Option (Nat × Str) :=
  let ds := s.takeWhile (fun c => isDigitC c)
  if ds = [] then none
  else some (natFromDigits ds, s.dropWhile (fun c => isDigitC c))

/-- Match a literal suffix (`dropLit "ull" s` expects `s` to start with
`ull`). -/
def dropLit : Str → Str → Option Str
  | [], s => some s
  | c :: cs, d :: ds => if d = c then dropLit cs ds else none
  | _ :: _, [] => none

mutual
/-- Models `JSON.parse` on compact JSON texts (no interspersed whitespace,
which `stringify` never emits; integer numbers): parse one value, returning
it with the unconsumed remainder.  The first argument is recursion fuel;
`length + 1` of the input always suffices. -/
def parseValue : Nat → Str → Option (Json × Str)
  | 0, _ => none
  | f + 1, s =>
      match s with
      | [] => none
      | c :: rest =>
          if c = 'n' then
            match dropLit ['u', 'l', 'l'] rest with
            | some r => some (.null, r)
            | none => none
          else if c = 't' then
            match dropLit ['r', 'u', 'e'] rest with
            | some r => some (.bool true, r)
            | none => none
          else if c = 'f' then
            match dropLit ['a', 'l', 's', 'e'] rest with
            | some r => some (.bool false, r)
            | none => none
          else if c = '"' then
            match parseStringBody rest with
            | some (s2, r) => some (.str s2, r)
            | none => none
          else if c = '[' then
            if rest.head? = some ']' then some (.arr .nil, rest.tail)
            else
              match parseArrItems f rest with
              | some (xs, r) => some (.arr xs, r)
              | none => none
          else if c = '{' then
            if rest.head? = some '}' then some (.obj .nil, rest.tail)
            else
              match parseObjItems f rest with
              | some (kvs, r) => some (.obj kvs, r)
              | none => none
          else if c = '-' then
            match parseNatDigits rest with
            | some (n, r) => some (.num (-(n : Int)), r)
            | none => none
          else if isDigitC c then
            match parseNatDigits (c :: rest) with
            | some (n, r) => some (.num ((n : Int)), r)
            | none => none
          else none
/-- Parse the comma-separated elements of a non-empty array, up to and
including the closing bracket. -/
def parseArrItems : Nat → Str → Option (JsonArr × Str)
  | 0, _ => none
  | f + 1, s =>
      match parseValue f s with
      | some (v, r) =>
          match r with
          | ',' :: r2 =>
              match parseArrItems f r2 with
              | some (xs, r3) => some (.cons v xs, r3)
              | none => none
          | ']' :: r2 => some (.cons v .nil, r2)
          | _ => none
      | none => none
/-- Parse the comma-separated members of a non-empty object, up to and
including the closing brace. -/
def parseObjItems : Nat → Str → Option (JsonObj × Str)
  | 0, _ => none
  | f + 1, s =>
      match s with
      | '"' :: rest =>
          match parseStringBody rest with
          | some (k, r) =>
              match r with
              | ':' :: r1 =>
                  match parseValue f r1 with
                  | some (v, r2) =>
                      match r2 with
                      | ',' :: r3 =>
                          match parseObjItems f r3 with
                          | some (kvs, r4) => some (.cons k v kvs, r4)
                          | none => none
                      | '}' :: r3 => some (.cons k v .nil, r3)
                      | _ => none
                  | none => none
              | _ => none
          | none => none
      | _ => none
end

/-- Models `JSON.parse`: the whole text must parse as one value with nothing
left over, else the error that `JSON.parse` throws is modelled by `none`. -/
def jsonParse (s : Str) : Option Json :=
  match parseValue (s.length + 1) s with
  | some (v, []) => some v
  | _ => none

/-! #### Round trip of the JSON model -/

theorem hexVal_hexDigit : ∀ m < 16, hexVal (hexDigit m) = some m := by decide

theorem digitChar_isDigitC : ∀ n < 10, isDigitC (Nat.digitChar n) = true := by
  decide

theorem digitChar_val : ∀ n < 10, (Nat.digitChar n).toNat - 48 = n := by decide

theorem natDigitsF_ne_nil (f n : Nat) (hf : 1 ≤ f) : natDigitsF f n ≠ [] := by
  cases f with
  | zero => omega
  | succ f =>
      unfold natDigitsF
      split
      · simp
      · simp

theorem natDigitsF_digits (f : Nat) : ∀ (n : Nat), ∀ c ∈ natDigitsF f n,
    isDigitC c = true := by
  induction f with
  | zero => intro n c hc; simp [natDigitsF] at hc
  | succ f ih =>
      intro n c hc
      unfold natDigitsF at hc
      split at hc
      · next h =>
          simp at hc
          subst hc
          exact digitChar_isDigitC n h
      · simp at hc
        rcases hc with hc | hc
        · exact ih (n / 10) c hc
        · subst hc
          exact digitChar_isDigitC (n % 10) (by omega)

theorem natFromDigits_append (l : Str) (c : Char) :
    natFromDigits (l ++ [c]) = natFromDigits l * 10 + (c.toNat - 48) := by
  unfold natFromDigits
  rw [List.foldl_append]
  rfl

theorem natFromDigits_natDigitsF (f : Nat) : ∀ n < f,
    natFromDigits (natDigitsF f n) = n := by
  induction f with
  | zero => intro n h; omega
  | succ f ih =>
      intro n hn
      unfold natDigitsF
      split
      · next h =>
          unfold natFromDigits
          simp [List.foldl]
          exact digitChar_val n h
      · next h =>
          rw [natFromDigits_append, ih (n / 10) (by omega),
            digitChar_val (n % 10) (by omega)]
          omega

/-- The remainder after a parsed number must not begin with a digit. -/
def noDigitStart (t : Str) : Prop :=
  ∀ c, t.head? = some c → isDigitC c = false

theorem takeWhile_app (p : Char → Bool) (l : Str) (t : Str)
    (hl : ∀ c ∈ l, p c = true)
    (ht : ∀ c, t.head? = some c → p c = false) :
    (l ++ t).takeWhile p = l ∧ (l ++ t).dropWhile p = t := by
  induction l with
  | nil =>
      simp only [List.nil_append]
      cases t with
      | nil => simp
      | cons c cs =>
          have := ht c rfl
          simp [List.takeWhile, List.dropWhile, this]
  | cons a l ih =>
      have ha : p a = true := hl a (by simp)
      have ih' := ih (fun c hc => hl c (by simp [hc]))
      simp [List.takeWhile, List.dropWhile, ha, ih'.1, ih'.2]

theorem parseStringBody_lit (c : Char) (u : Str) (h1 : c ≠ '"')
    (h2 : c ≠ '\\') (h3 : ¬ c.toNat < 32) :
    parseStringBody (c :: u) = consStr c (parseStringBody u) := by
  rw [parseStringBody.eq_def]
  split
  · simp_all
  · simp_all
  · simp_all
  · next h =>
      injection h with hc hu
      subst hc
      subst hu
      rw [if_neg h3]

theorem parseStringBody_escapeChar (c : Char) (u : Str) (res : Str × Str)
    (hu : parseStringBody u = some res) :
    parseStringBody (escapeChar c ++ u) = some (c :: res.1, res.2) := by
  obtain ⟨s1, r1⟩ := res
  have hofn : Char.ofNat c.toNat = c := Char.ofNat_toNat c
  unfold escapeChar
  by_cases hq : c = '"'
  · subst hq
    rw [if_pos rfl]
    rw [parseStringBody.eq_def]
    simp [hu, consStr]
  rw [if_neg hq]
  by_cases hb : c = '\\'
  · subst hb
    rw [if_pos rfl]
    rw [parseStringBody.eq_def]
    simp [hu, consStr]
  rw [if_neg hb]
  by_cases hn : c = '\n'
  · subst hn
    rw [if_pos rfl]
    rw [parseStringBody.eq_def]
    simp [hu, consStr]
  rw [if_neg hn]
  by_cases hr : c = '\r'
  · subst hr
    rw [if_pos rfl]
    rw [parseStringBody.eq_def]
    simp [hu, consStr]
  rw [if_neg hr]
  by_cases htb : c = '\t'
  · subst htb
    rw [if_pos rfl]
    rw [parseStringBody.eq_def]
    simp [hu, consStr]
  rw [if_neg htb]
  by_cases h8 : c.toNat = 8
  · rw [if_pos h8]
    have hc8 : Char.ofNat 8 = c := by rw [← h8, hofn]
    rw [parseStringBody.eq_def]
    simp [hu, consStr]
    exact hc8
  rw [if_neg h8]
  by_cases h12 : c.toNat = 12
  · rw [if_pos h12]
    have hc12 : Char.ofNat 12 = c := by rw [← h12, hofn]
    rw [parseStringBody.eq_def]
    simp [hu, consStr]
    exact hc12
  rw [if_neg h12]
  by_cases h32 : c.toNat < 32
  · rw [if_pos h32]
    have hd1 : hexVal (hexDigit (c.toNat / 16)) = some (c.toNat / 16) :=
      hexVal_hexDigit _ (by omega)
    have hd2 : hexVal (hexDigit (c.toNat % 16)) = some (c.toNat % 16) :=
      hexVal_hexDigit _ (by omega)
    simp only [List.cons_append, List.nil_append]
    rw [parseStringBody.eq_def]
    simp [show hexVal '0' = some 0 from by decide, hd1, hd2]
    have he : c.toNat / 16 * 16 + c.toNat % 16 = c.toNat := by omega
    rw [he]
    constructor
    · exact Or.inl (by omega)
    · rw [hofn, hu]
      rfl
  rw [if_neg h32]
  rw [List.singleton_append, parseStringBody_lit c u hq hb h32, hu]
  rfl

theorem parseStringBody_escape (s : Str) (t : Str) :
    parseStringBody (escapeStr s ++ '"' :: t) = some (s, t) := by
  induction s with
  | nil => simp [escapeStr, parseStringBody]
  | cons c cs ih =>
      have h : escapeStr (c :: cs) ++ '"' :: t
          = escapeChar c ++ (escapeStr cs ++ '"' :: t) := by
        simp [escapeStr]
      rw [h, parseStringBody_escapeChar c _ (cs, t) ih]

theorem parseNatDigits_natDigits (n : Nat) (t : Str) (ht : noDigitStart t) :
    parseNatDigits (natDigits n ++ t) = some (n, t) := by
  have hd : ∀ c ∈ natDigits n, isDigitC c = true :=
    fun c hc => natDigitsF_digits (n + 1) n c hc
  have htw := takeWhile_app (fun c => isDigitC c) (natDigits n) t hd ht
  have hne : natDigits n ≠ [] := natDigitsF_ne_nil (n + 1) n (by omega)
  have hv : natFromDigits (natDigits n) = n :=
    natFromDigits_natDigitsF (n + 1) n (by omega)
  unfold parseNatDigits
  rw [htw.1, htw.2]
  show (if natDigits n = [] then none
    else some (natFromDigits (natDigits n), t)) = some (n, t)
  rw [if_neg hne, hv]

theorem isDigitC_ne (c : Char) (h : isDigitC c = true) :
    c ≠ 'n' ∧ c ≠ 't' ∧ c ≠ 'f' ∧ c ≠ '"' ∧ c ≠ '[' ∧ c ≠ '{' ∧ c ≠ '-' ∧
    c ≠ ']' ∧ c ≠ '}' ∧ c ≠ ',' ∧ c ≠ ':' := by
  refine ⟨?_, ?_, ?_, ?_, ?_, ?_, ?_, ?_, ?_, ?_, ?_⟩ <;>
    (intro heq; subst heq; exact absurd h (by decide))

/-- Classification of the first character of a stringified value: it
determines the parser branch and is never a delimiter. -/
theorem stringify_head (v : Json) : ∃ c cs, stringify v = c :: cs ∧
    (c = 'n' ∨ c = 't' ∨ c = 'f' ∨ c = '"' ∨ c = '[' ∨ c = '{' ∨ c = '-' ∨
      isDigitC c = true) := by
  cases v with
  | null => exact ⟨'n', _, rfl, by simp⟩
  | bool b => cases b with
      | true => exact ⟨'t', _, rfl, by simp⟩
      | false => exact ⟨'f', _, rfl, by simp⟩
  | num n =>
      cases n with
      | ofNat m =>
          have hne : natDigits m ≠ [] := natDigitsF_ne_nil (m + 1) m (by omega)
          obtain ⟨c, cs, hcons⟩ := List.exists_cons_of_ne_nil hne
          refine ⟨c, cs, hcons, ?_⟩
          have hcd : isDigitC c = true :=
            natDigitsF_digits (m + 1) m c (by rw [← natDigits, hcons]; simp)
          tauto
      | negSucc m => exact ⟨'-', _, rfl, by simp⟩
  | str s => exact ⟨'"', _, rfl, by simp⟩
  | arr xs => cases xs with
      | nil => exact ⟨'[', _, rfl, by simp⟩
      | cons x tl => exact ⟨'[', _, rfl, by simp⟩
  | obj kvs => cases kvs with
      | nil => exact ⟨'{', _, rfl, by simp⟩
      | cons k v2 tl => exact ⟨'{', _, rfl, by simp⟩

theorem stringify_length_pos (v : Json) : 1 ≤ (stringify v).length := by
  obtain ⟨c, cs, hcons, _⟩ := stringify_head v
  rw [hcons]
  simp

/-- The head of a stringified value is not a closing delimiter. -/
theorem stringify_head_not_delim (v : Json) :
    ∀ c cs, stringify v = c :: cs →
      c ≠ ']' ∧ c ≠ '}' ∧ c ≠ ',' ∧ c ≠ ':' := by
  intro c cs hcons
  obtain ⟨c2, cs2, hcons2, hclass⟩ := stringify_head v
  rw [hcons] at hcons2
  injection hcons2 with hc _
  subst hc
  rcases hclass with h | h | h | h | h | h | h | h
  all_goals first
    | (subst h; refine ⟨by decide, by decide, by decide, by decide⟩)
    | (exact ⟨(isDigitC_ne _ h).2.2.2.2.2.2.2.1,
        (isDigitC_ne _ h).2.2.2.2.2.2.2.2.1,
        (isDigitC_ne _ h).2.2.2.2.2.2.2.2.2.1,
        (isDigitC_ne _ h).2.2.2.2.2.2.2.2.2.2⟩)

theorem noDigitStart_nil : noDigitStart [] := by
  intro c hc
  simp at hc

theorem noDigitStart_cons (c : Char) (t : Str) (h : isDigitC c = false) :
    noDigitStart (c :: t) := by
  intro c2 hc2
  simp at hc2
  subst hc2
  exact h

theorem stringifyArr_cons_head (x : Json) (tl : JsonArr) :
    ∃ c cs cs2, stringify x = c :: cs2 ∧
      stringifyArr (.cons x tl) = c :: cs := by
  obtain ⟨c, cs2, hx, _⟩ := stringify_head x
  cases tl with
  | nil => exact ⟨c, cs2, cs2, hx, by simp [stringifyArr, hx]⟩
  | cons y tl2 =>
      refine ⟨c, cs2 ++ ',' :: stringifyArr (.cons y tl2), cs2, hx, ?_⟩
      simp [stringifyArr, hx]

theorem parse_stringify_all (f : Nat) :
    (∀ (v : Json) (rest : Str), (stringify v).length ≤ f → noDigitStart rest →
      parseValue f (stringify v ++ rest) = some (v, rest)) ∧
    (∀ (x : Json) (tl : JsonArr) (rest : Str),
      (stringifyArr (.cons x tl)).length + 1 ≤ f →
      parseArrItems f (stringifyArr (.cons x tl) ++ ']' :: rest)
        = some (.cons x tl, rest)) ∧
    (∀ (k : Str) (v : Json) (tl : JsonObj) (rest : Str),
      (stringifyObj (.cons k v tl)).length + 1 ≤ f →
      parseObjItems f (stringifyObj (.cons k v tl) ++ '}' :: rest)
        = some (.cons k v tl, rest)) := by
  induction f with
  | zero =>
      refine ⟨?_, ?_, ?_⟩
      · intro v rest hlen _
        have := stringify_length_pos v
        omega
      · intro x tl rest hlen
        omega
      · intro k v tl rest hlen
        omega
  | succ f ih =>
      obtain ⟨ihP, ihQ, ihR⟩ := ih
      refine ⟨?_, ?_, ?_⟩
      · intro v rest hlen hrest
        cases v with
        | null =>
            rw [show stringify .null ++ rest = 'n' :: 'u' :: 'l' :: 'l' :: rest
              from rfl]
            rw [parseValue.eq_def]
            simp [dropLit]
        | bool b =>
            cases b with
            | false =>
                rw [show stringify (.bool false) ++ rest
                  = 'f' :: 'a' :: 'l' :: 's' :: 'e' :: rest from rfl]
                rw [parseValue.eq_def]
                simp [dropLit]
            | true =>
                rw [show stringify (.bool true) ++ rest
                  = 't' :: 'r' :: 'u' :: 'e' :: rest from rfl]
                rw [parseValue.eq_def]
                simp [dropLit]
        | num n =>
            cases n with
            | ofNat m =>
                have hne : natDigits m ≠ [] :=
                  natDigitsF_ne_nil (m + 1) m (by omega)
                obtain ⟨c, cs, hcons⟩ := List.exists_cons_of_ne_nil hne
                have hcd : isDigitC c = true :=
                  natDigitsF_digits (m + 1) m c (by
                    rw [show natDigitsF (m+1) m = natDigits m from rfl, hcons]
                    simp)
                obtain ⟨hn1, hn2, hn3, hn4, hn5, hn6, hn7, _⟩ :=
                  isDigitC_ne c hcd
                have hpn : c :: (cs ++ rest) = natDigits m ++ rest := by
                  rw [hcons]
                  simp
                rw [show stringify (Json.num (Int.ofNat m)) = natDigits m
                  from rfl, hcons, List.cons_append, parseValue.eq_def]
                simp only []
                rw [if_neg hn1, if_neg hn2, if_neg hn3, if_neg hn4,
                  if_neg hn5, if_neg hn6, if_neg hn7, if_pos hcd]
                rw [hpn, parseNatDigits_natDigits m rest hrest]
                rfl
            | negSucc m =>
                rw [show stringify (Json.num (Int.negSucc m))
                  = '-' :: natDigits (m + 1) from rfl, List.cons_append,
                  parseValue.eq_def]
                simp only []
                rw [if_neg (by decide), if_neg (by decide), if_neg (by decide),
                  if_neg (by decide), if_neg (by decide), if_neg (by decide),
                  if_pos trivial]
                rw [parseNatDigits_natDigits (m + 1) rest hrest]
                simp [Int.negSucc_eq]
        | str s2 =>
            rw [show stringify (Json.str s2) ++ rest
              = '"' :: (escapeStr s2 ++ '"' :: rest) from by simp [stringify]]
            rw [parseValue.eq_def]
            simp only []
            rw [if_neg (by decide), if_neg (by decide), if_neg (by decide),
              if_pos trivial]
            rw [parseStringBody_escape s2 rest]
        | arr xs =>
            cases xs with
            | nil =>
                rw [show stringify (Json.arr .nil) ++ rest
                  = '[' :: ']' :: rest from rfl]
                rw [parseValue.eq_def]
                simp
            | cons x tl =>
                obtain ⟨c, cs, cs2, hx, hsa⟩ := stringifyArr_cons_head x tl
                have hcne := (stringify_head_not_delim x c cs2 hx).1
                have hl2 : (stringify (Json.arr (.cons x tl))).length
                    = (stringifyArr (.cons x tl)).length + 2 := by
                  simp [stringify]
                rw [show stringify (Json.arr (.cons x tl)) ++ rest
                  = '[' :: (stringifyArr (.cons x tl) ++ ']' :: rest)
                  from by simp [stringify]]
                rw [parseValue.eq_def]
                simp only []
                rw [if_neg (by decide), if_neg (by decide), if_neg (by decide),
                  if_neg (by decide), if_pos trivial]
                rw [if_neg (by rw [hsa]; simp [hcne])]
                rw [ihQ x tl rest (by omega)]
        | obj kvs =>
            cases kvs with
            | nil =>
                rw [show stringify (Json.obj .nil) ++ rest
                  = '{' :: '}' :: rest from rfl]
                rw [parseValue.eq_def]
                simp
            | cons k v2 tl =>
                have hl2 : (stringify (Json.obj (.cons k v2 tl))).length
                    = (stringifyObj (.cons k v2 tl)).length + 2 := by
                  simp [stringify]
                have hhead : ∃ cs3, stringifyObj (.cons k v2 tl)
                    = '"' :: cs3 := by
                  cases tl with
                  | nil => exact ⟨_, rfl⟩
                  | cons a b c => exact ⟨_, rfl⟩
                obtain ⟨cs3, hso⟩ := hhead
                rw [show stringify (Json.obj (.cons k v2 tl)) ++ rest
                  = '{' :: (stringifyObj (.cons k v2 tl) ++ '}' :: rest)
                  from by simp [stringify]]
                rw [parseValue.eq_def]
                simp only []
                rw [if_neg (by decide), if_neg (by decide), if_neg (by decide),
                  if_neg (by decide), if_neg (by decide), if_pos trivial]
                rw [if_neg (by rw [hso]; simp)]
                rw [ihR k v2 tl rest (by omega)]
      · intro x tl rest hlen
        have hxpos := stringify_length_pos x
        rw [parseArrItems.eq_def]
        simp only []
        cases tl with
        | nil =>
            have h1 : stringifyArr (.cons x .nil) ++ ']' :: rest
                = stringify x ++ (']' :: rest) := by
              simp [stringifyArr]
            have hll : (stringifyArr (.cons x .nil)).length
                = (stringify x).length := by simp [stringifyArr]
            rw [h1, ihP x (']' :: rest) (by omega)
              (noDigitStart_cons ']' rest (by decide))]
            rfl
        | cons y tl2 =>
            have h1 : stringifyArr (.cons x (.cons y tl2)) ++ ']' :: rest
                = stringify x
                  ++ (',' :: (stringifyArr (.cons y tl2) ++ ']' :: rest)) := by
              simp [stringifyArr]
            have hll : (stringifyArr (.cons x (.cons y tl2))).length
                = (stringify x).length + 1
                  + (stringifyArr (.cons y tl2)).length := by
              simp [stringifyArr]
              omega
            rw [h1, ihP x _ (by omega)
              (noDigitStart_cons ',' _ (by decide))]
            have hq := ihQ y tl2 rest (by omega)
            simp [hq]
      · intro k v tl rest hlen
        have hvpos := stringify_length_pos v
        rw [parseObjItems.eq_def]
        simp only []
        cases tl with
        | nil =>
            have h1 : stringifyObj (.cons k v .nil) ++ '}' :: rest
                = '"' :: (escapeStr k
                  ++ '"' :: (':' :: (stringify v ++ '}' :: rest))) := by
              simp [stringifyObj]
            have hll : (stringifyObj (.cons k v .nil)).length
                = (escapeStr k).length + 3 + (stringify v).length := by
              simp [stringifyObj]
              omega
            rw [h1]
            have hsb := parseStringBody_escape k
              (':' :: (stringify v ++ '}' :: rest))
            have hp := ihP v ('}' :: rest) (by omega)
              (noDigitStart_cons '}' _ (by decide))
            simp [hsb, hp]
        | cons k2 v2 tl2 =>
            have h1 : stringifyObj (.cons k v (.cons k2 v2 tl2)) ++ '}' :: rest
                = '"' :: (escapeStr k ++ '"' :: (':' :: (stringify v
                  ++ ',' :: (stringifyObj (.cons k2 v2 tl2)
                    ++ '}' :: rest)))) := by
              simp [stringifyObj]
            have hll : (stringifyObj (.cons k v (.cons k2 v2 tl2))).length
                = (escapeStr k).length + 4 + (stringify v).length
                  + (stringifyObj (.cons k2 v2 tl2)).length := by
              simp [stringifyObj]
              omega
            rw [h1]
            have hsb := parseStringBody_escape k
              (':' :: (stringify v ++ ',' :: (stringifyObj (.cons k2 v2 tl2)
                ++ '}' :: rest)))
            have hp := ihP v (',' :: (stringifyObj (.cons k2 v2 tl2)
                ++ '}' :: rest)) (by omega)
              (noDigitStart_cons ',' _ (by decide))
            have hr := ihR k2 v2 tl2 rest (by omega)
            simp [hsb, hp, hr]

/-- Round trip of the JSON model: parsing a stringification recovers the
value. -/
theorem jsonParse_stringify (v : Json) : jsonParse (stringify v) = some v := by
  unfold jsonParse
  have hp := (parse_stringify_all ((stringify v).length + 1)).1 v []
    (by omega) noDigitStart_nil
  rw [List.append_nil] at hp
  rw [hp]

/-! ### Symmetric cipher engine: `src/utils/encryptionUtil.ts`

`crypto.subtle`'s AES-GCM is a platform primitive.  It is modelled at its
interface: the ciphertext is the plaintext XORed with a keystream derived
from key and IV (so its length equals the plaintext length), followed by a
16-byte authentication tag computed over key, IV and ciphertext; decryption
recomputes and compares the tag and fails (`none`) when it does not match or
the data is shorter than the tag.  The keystream and tag functions are
concrete stand-ins for the AES-based computations. -/

/-- Configuration constants of the symmetric engine
(`ENCRYPTION_CONFIG` in `encryptionUtil.ts`). -/
structure EncryptionConfig where
  algorithm : String
  keyLength : Nat
  ivLength : Nat
  tagLength : Nat

def ENCRYPTION_CONFIG : EncryptionConfig :=
  { algorithm := "AES-GCM", keyLength := 256, ivLength := 12,
    tagLength := 128 }

/-- Keystream byte `i` of the modelled AES-GCM cipher for a key and IV. -/
def keystreamByte (key iv : List Nat) (i : Nat) : Nat :=
  (key.foldl (fun a b => (a * 131 + b) % 65536) 7 * 31 +
   iv.foldl (fun a b => (a * 137 + b) % 65536) 11 * 17 + i * 13) % 256

def keystream (key iv : List Nat) (n : Nat) : List Nat :=
  (List.range n).map (keystreamByte key iv)

/-- Byte `i` of the modelled 16-byte GCM authentication tag. -/
def gcmTagByte (key iv ct : List Nat) (i : Nat) : Nat :=
  (key.foldl (fun a b => (a * 131 + b) % 65536) 3 +
   iv.foldl (fun a b => (a * 139 + b) % 65536) 5 * 7 +
   ct.foldl (fun a b => (a * 149 + b) % 65536) 13 * 11 + i * 29) % 256

def gcmTag (key iv ct : List Nat) : List Nat :=
  (List.range 16).map (gcmTagByte key iv ct)

/-- Models `crypto.subtle.encrypt({name:'AES-GCM', iv, tagLength:128}, ...)`:
ciphertext of the plaintext's length followed by the 16-byte tag. -/
def subtleEncryptGCM (key iv pt : List Nat) : List Nat :=
  let ct := List.zipWith (fun p s => p ^^^ s) pt (keystream key iv pt.length)
  ct ++ gcmTag key iv ct

/-- Models `crypto.subtle.decrypt({name:'AES-GCM', iv, tagLength:128}, ...)`:
fails (the browser throws `OperationError`) whenever the authentication tag
does not verify, including data shorter than the tag. -/
def subtleDecryptGCM (key iv data : List Nat) : Option (List Nat) :=
  if data.length < 16 then none
  else
    let ct := data.take (data.length - 16)
    let tag := data.drop (data.length - 16)
    if gcmTag key iv ct = tag then
      some (List.zipWith (fun c s => c ^^^ s) ct (keystream key iv ct.length))
    else none

/-- Models `importKey` of `encryptionUtil.ts`: base64-decode the key
(`atob`, throws on bad base64) and import it as a raw AES key
(`crypto.subtle.importKey('raw', ...)` throws `DataError` on a length other
than 16, 24 or 32 bytes); the handle is the raw key bytes. -/
def importKey (base64Key : Str) : Option (List Nat) :=
  match atob base64Key with
  | some keyData =>
      if keyData.length = 16 ∨ keyData.length = 24 ∨ keyData.length = 32 then
        some keyData
      else none
  | none => none

/-- Models `generateEncryptionKey`: `crypto.subtle.generateKey` mints a fresh
AES-256 key whose raw export (32 platform-supplied random bytes, the `raw`
parameter) is base64-encoded and returned. -/
def generateEncryptionKey (raw : List Nat) : Str := btoa raw

/-- Result object of `encryptPayload`. -/
structure EncryptResult where
  encryptedData : Str
  encryptionKey : Str
deriving DecidableEq

/-- Models `encryptPayload`: `keyToUse = base64Key || generateEncryptionKey()`
(JavaScript `||`, so an empty-string key counts as absent), import the key,
`JSON.stringify` the payload, UTF-8 encode, AES-GCM encrypt under a fresh
12-byte IV (`getRandomValues`, the `iv` parameter), prepend the IV and
base64-encode.  The surrounding catch rethrows every failure as
`'Failed to encrypt payload'`. -/
def encryptPayload (payload : Json) (base64Key : Option Str)
    (freshRaw iv : List Nat) : Except Str EncryptResult :=
  let keyToUse := match base64Key with
    | some k => if k = [] then generateEncryptionKey freshRaw else k
    | none => generateEncryptionKey freshRaw
  match importKey keyToUse with
  | none => .error "Failed to encrypt payload".data
  | some key =>
      let data := utf8Encode (stringify payload)
      let combined := iv ++ subtleEncryptGCM key iv data
      .ok { encryptedData := btoa combined, encryptionKey := keyToUse }

/-- Models `decryptPayload`: import the key, base64-decode the envelope,
split off the first `ivLength` bytes as IV, AES-GCM decrypt the remainder
(authentication-tag verification), UTF-8 decode and `JSON.parse`.  The
surrounding catch rethrows every failure — bad key, bad base64, tag
verification failure and JSON parse failure alike — as
`'Failed to decrypt payload'`. -/
def decryptPayload (encryptedBase64 : Str) (base64Key : Str) :
    Except Str Json :=
  match importKey base64Key with
  | none => .error "Failed to decrypt payload".data
  | some key =>
      match atob encryptedBase64 with
      | none => .error "Failed to decrypt payload".data
      | some combined =>
          let iv := combined.take ENCRYPTION_CONFIG.ivLength
          let encryptedData := combined.drop ENCRYPTION_CONFIG.ivLength
          match subtleDecryptGCM key iv encryptedData with
          | none => .error "Failed to decrypt payload".data
          | some decryptedBuffer =>
              match jsonParse (utf8Decode decryptedBuffer) with
              | some v => .ok v
              | none => .error "Failed to decrypt payload".data

/-! ### Asymmetric key wrapper and encryption service:
`src/services/userService.ts` and the standalone RSA utility -/

/-- RSA configuration of the service (`RSA_CONFIG` in `userService.ts`):
RSA-OAEP with a 2048-bit modulus and SHA-256 — Web Crypto uses the configured
hash both as the OAEP hash and for MGF1, with no label. -/
structure RsaConfig where
  name : String
  modulusLength : Nat
  hash : String

def RSA_CONFIG : RsaConfig :=
  { name := "RSA-OAEP", modulusLength := 2048, hash := "SHA-256" }

/-- Models `crypto.subtle.encrypt({name:'RSA-OAEP'}, publicKey, data)` under
`RSA_CONFIG` (RSA-OAEP, SHA-256 hash and MGF1, no label).  The OAEP transform
and modular exponentiation are platform primitives outside the repository;
the model represents the ciphertext by the plaintext bytes submitted to the
primitive, which is exactly what statements about *which* bytes are wrapped
need. -/
def rsaOaepEncrypt (publicKey : List Nat) (msg : List Nat) : List Nat := msg

/-- Models `String.prototype.trim` (ASCII whitespace at both ends). -/
def trimStr (s : Str) : Str :=
  ((s.dropWhile (fun c => isAsciiWs c)).reverse.dropWhile
    (fun c => isAsciiWs c)).reverse

/-- Models `importRSAPublicKeyFromBase64` of `userService.ts`: reject an
empty (or whitespace-only) key, `trim` it, base64-decode it (`atob`) and
then import the DER as an SPKI key.  Only `trim` is applied — no PEM
header/footer stripping.  The catch turns every failure into
`'Failed to import RSA public key'`; `crypto.subtle.importKey('spki', ...)`
validation of the DER structure is platform-side, modelled as accepting with
the DER bytes as the key handle. -/
def importRSAPublicKeyFromBase64 (base64Key : Str) : Except Str (List Nat) :=
  let cleanedKey := trimStr base64Key
  if cleanedKey.length = 0 then .error "Failed to import RSA public key".data
  else
    match atob cleanedKey with
    | none => .error "Failed to import RSA public key".data
    | some binaryDer => .ok binaryDer

/-- Models `encryptWithRSA` of `userService.ts`: UTF-8 encode the *string*
argument (`TextEncoder().encode(data)`), RSA-OAEP encrypt the resulting
bytes, base64-encode the ciphertext. -/
def encryptWithRSA (data : Str) (publicKey : List Nat) : Str :=
  btoa (rsaOaepEncrypt publicKey (utf8Encode data))

/-- The `aesKeyStore` object of `userService.ts`: a mapping from session id
to base64 AES key. -/
abbrev AESKeyStore := List (Str × Str)

def storeGet (st : AESKeyStore) (sid : Str) : Option Str :=
  (st.find? (fun p => p.1 = sid)).map (fun p => p.2)

/-- JavaScript property assignment `aesKeyStore[sid] = key`: inserts, or
silently replaces an existing entry for the same id.  (Modelled up to entry
order, which `storeGet` cannot observe.) -/
def storeSet (st : AESKeyStore) (sid key : Str) : AESKeyStore :=
  (sid, key) :: st.filter (fun p => ¬ p.1 = sid)

/-- JavaScript `delete aesKeyStore[sid]`. -/
def storeDelete (st : AESKeyStore) (sid : Str) : AESKeyStore :=
  st.filter (fun p => ¬ p.1 = sid)

structure EncryptedRequest where
  sessionId : Str
  encryptedData : Str
  encryptedKey : Str
  payloadType : Option Str
deriving DecidableEq

structure EncryptedResponse where
  sessionId : Str
  encryptedData : Str
  encryptedKey : Str
deriving DecidableEq

/-- Models `encryptRequest`: the fresh session fetched by `getPublicKey()`
(`sessionId`, `publicKey`) and the platform randomness (`freshRaw` for
`generateEncryptionKey`, `iv` for `getRandomValues`) are parameters.  Steps,
in source order: generate the AES key, store it under the session id
(`aesKeyStore[session.sessionId] = aesKey` — before any fallible step, so the
entry persists even when a later step fails), AES-encrypt the payload, import
the RSA public key, RSA-encrypt the `aesKey` *string* with `encryptWithRSA`,
and assemble the envelope.  The catch rethrows every failure as
`'Failed to encrypt request payload'`. -/
def encryptRequest (store : AESKeyStore) (sessionId publicKey : Str)
    (payload : Json) (payloadType : Option Str) (freshRaw iv : List Nat) :
    AESKeyStore × Except Str EncryptedRequest :=
  match encryptPayload payload (some (generateEncryptionKey freshRaw))
      freshRaw iv with
  | .error _ => (storeSet store sessionId (generateEncryptionKey freshRaw),
      .error "Failed to encrypt request payload".data)
  | .ok r =>
      match importRSAPublicKeyFromBase64 publicKey with
      | .error _ => (storeSet store sessionId (generateEncryptionKey freshRaw),
          .error "Failed to encrypt request payload".data)
      | .ok rsaPublicKey =>
          (storeSet store sessionId (generateEncryptionKey freshRaw),
           .ok { sessionId := sessionId,
                 encryptedData := r.encryptedData,
                 encryptedKey :=
                   encryptWithRSA (generateEncryptionKey freshRaw)
                     rsaPublicKey,
                 payloadType := payloadType })

/-- The error thrown inside `decryptResponse` when no key is on file. -/
def unknownSessionMsg (sid : Str) : Str :=
  "No AES key found for session: ".data ++ sid

/-- The body of `decryptResponse`'s `try` block: look up the AES key for the
session id (throwing the unknown-session error if absent), decrypt with
`decryptPayload` (its failure propagates out of the block), and only after a
successful decryption `delete aesKeyStore[sessionId]`. -/
def decryptResponseInner (store : AESKeyStore) (resp : EncryptedResponse) :
    AESKeyStore × Except Str Json :=
  match storeGet store resp.sessionId with
  | none => (store, .error (unknownSessionMsg resp.sessionId))
  | some aesKey =>
      match decryptPayload resp.encryptedData aesKey with
      | .error e => (store, .error e)
      | .ok decrypted => (storeDelete store resp.sessionId, .ok decrypted)

/-- Models `decryptResponse`: the `try` body (`decryptResponseInner`) wrapped
in the `catch` that rethrows *every* failure as
`'Failed to decrypt response payload'`. -/
def decryptResponse (store : AESKeyStore) (resp : EncryptedResponse) :
    AESKeyStore × Except Str Json :=
  ((decryptResponseInner store resp).1,
   (decryptResponseInner store resp).2.mapError
     (fun _ => "Failed to decrypt response payload".data))

/-! ### The standalone RSA utility (rsaUtils) -/

def pemHeader : Str := "-----BEGIN PUBLIC KEY-----".data

def pemFooter : Str := "-----END PUBLIC KEY-----".data

/-- JavaScript `String.prototype.replace` with a string pattern: remove the
first occurrence of `pat` (used with the PEM header/footer). -/
def replaceFirst : Str → Str → Str
  | [], _ => []
  | c :: cs, pat =>
      if pat.isPrefixOf (c :: cs) then (c :: cs).drop pat.length
      else c :: replaceFirst cs pat

/-- The `\s` character class of `.replace(/\s/g, "")` (ASCII part; the
base64/PEM inputs concerned contain no other whitespace). -/
def isJsWs (c : Char) : Bool := isAsciiWs c || c = Char.ofNat 0x0B

/-- Models `importPublicKey` of the RSA utility: strip the PEM header and
footer (first occurrence each) and all whitespace, base64-decode, and import
the DER as an SPKI RSA-OAEP/SHA-256 key.  The catch turns every failure into
`'Failed to import RSA public key'`; platform-side SPKI validation is
modelled as accepting with the DER bytes as the key handle. -/
def importPublicKey (base64PublicKey : Str) : Except Str (List Nat) :=
  let pemContents :=
    (replaceFirst (replaceFirst base64PublicKey pemHeader) pemFooter).filter
      (fun c => !isJsWs c)
  match atob pemContents with
  | none => .error "Failed to import RSA public key".data
  | some binaryDer => .ok binaryDer

/-- Models `encryptWithPublicKey` of the RSA utility: import the key, then
RSA-OAEP encrypt the *byte* argument and base64-encode; every failure becomes
`'Failed to encrypt with RSA public key'`. -/
def encryptWithPublicKey (data : List Nat) (base64PublicKey : Str) :
    Except Str Str :=
  match importPublicKey base64PublicKey with
  | .error _ => .error "Failed to encrypt with RSA public key".data
  | .ok publicKey => .ok (btoa (rsaOaepEncrypt publicKey data))

/-- Models `encryptAESKey` of the RSA utility: base64-decode the AES key to
its raw bytes (`atob`) and RSA-encrypt *those bytes*; every failure becomes
`'Failed to encrypt AES key with RSA'`. -/
def encryptAESKey (base64AESKey : Str) (base64PublicKey : Str) :
    Except Str Str :=
  match atob base64AESKey with
  | none => .error "Failed to encrypt AES key with RSA".data
  | some aesKeyBytes =>
      match encryptWithPublicKey aesKeyBytes base64PublicKey with
      | .error _ => .error "Failed to encrypt AES key with RSA".data
      | .ok out => .ok out

/-! ### Store lemmas and concrete demonstration values -/

theorem find?_filter_ne (ps : AESKeyStore) (sid sid2 : Str) (h : sid2 ≠ sid) :
    List.find? (fun p => p.1 = sid2) (ps.filter (fun p => ¬ p.1 = sid))
      = List.find? (fun p => p.1 = sid2) ps := by
  induction ps with
  | nil => rfl
  | cons q qs ih =>
      by_cases hq1 : q.1 = sid
      · have hd1 : (decide (¬ q.1 = sid)) = false := by simp [hq1]
        have hd2 : (decide (q.1 = sid2)) = false := by
          simp only [decide_eq_false_iff_not]
          exact fun hh => h (by rw [← hh, hq1])
        simp only [List.filter_cons, List.find?_cons, hd1, hd2, if_false]
        exact ih
      · have hd1 : (decide (¬ q.1 = sid)) = true := by simp [hq1]
        by_cases hq2 : q.1 = sid2
        · have hd2 : (decide (q.1 = sid2)) = true := by simp [hq2]
          simp only [List.filter_cons, List.find?_cons, hd1, hd2, if_true]
        · have hd2 : (decide (q.1 = sid2)) = false := by simp [hq2]
          simp only [List.filter_cons, List.find?_cons, hd1, hd2, if_true]
          exact ih

theorem find?_filter_self (ps : AESKeyStore) (sid : Str) :
    List.find? (fun p => p.1 = sid) (ps.filter (fun p => ¬ p.1 = sid))
      = none := by
  apply List.find?_eq_none.mpr
  intro x hx
  have := List.of_mem_filter hx
  simpa using this

theorem storeGet_storeSet_self (st : AESKeyStore) (sid key : Str) :
    storeGet (storeSet st sid key) sid = some key := by
  unfold storeGet storeSet
  rw [List.find?_cons_of_pos _ (by simp)]
  rfl

theorem storeGet_storeSet_other (st : AESKeyStore) (sid key sid2 : Str)
    (h : sid2 ≠ sid) :
    storeGet (storeSet st sid key) sid2 = storeGet st sid2 := by
  unfold storeGet storeSet
  rw [List.find?_cons_of_neg _ (by simpa using Ne.symm h)]
  rw [find?_filter_ne st sid sid2 h]

theorem storeGet_storeDelete_self (st : AESKeyStore) (sid : Str) :
    storeGet (storeDelete st sid) sid = none := by
  unfold storeGet storeDelete
  rw [find?_filter_self]
  rfl

theorem storeSet_count_one (st : AESKeyStore) (sid key : Str) :
    (storeSet st sid key).countP (fun q => decide (q.1 = sid)) = 1 := by
  unfold storeSet
  rw [List.countP_cons]
  have h1 : (st.filter (fun p => ¬ p.1 = sid)).countP
      (fun q => decide (q.1 = sid)) = 0 := by
    rw [List.countP_eq_zero]
    intro a ha
    have := List.of_mem_filter ha
    simpa using this
  rw [h1]
  simp

/-- 32 concrete key bytes standing for one output of the platform's
`crypto.subtle.generateKey` raw export. -/
def demoKeyRaw : List Nat := List.range 32

/-- 12 concrete IV bytes standing for one output of `getRandomValues`. -/
def demoIv : List Nat := List.range 12

def demoKey : Str := btoa demoKeyRaw

/-- Extract the result of a successful `encryptPayload` call. -/
def okOr (e : Except Str EncryptResult) : EncryptResult :=
  match e with
  | .ok r => r
  | .error _ => { encryptedData := [], encryptionKey := [] }

def demoRes : EncryptResult :=
  okOr (encryptPayload (Json.num 1) (some demoKey) [] demoIv)

def demoResNone : EncryptResult :=
  okOr (encryptPayload (Json.num 1) none demoKeyRaw demoIv)

def demoEnc : Str := demoRes.encryptedData

/-- An envelope whose authentication tag does not verify under `demoKey`. -/
def demoBadTagEnv : Str := btoa (List.replicate 40 0)

/-- An envelope that authenticates under `demoKey` but whose plaintext
(`x`) is not valid JSON. -/
def demoBadJsonEnv : Str :=
  btoa (demoIv ++ subtleEncryptGCM demoKeyRaw demoIv (utf8Encode ['x']))

def demoStore1 : AESKeyStore := [("s1".data, demoKey)]

def demoRespUnknown : EncryptedResponse :=
  { sessionId := "s1".data, encryptedData := [], encryptedKey := [] }

def demoRespBad : EncryptedResponse :=
  { sessionId := "s1".data, encryptedData := demoBadTagEnv,
    encryptedKey := [] }

def demoRespGood : EncryptedResponse :=
  { sessionId := "s1".data, encryptedData := demoEnc, encryptedKey := [] }

def demoDer : List Nat := [48, 130, 1, 2]

def demoPub : Str := btoa demoDer

/-! ### Claims about the key-store lifecycle (C2, C3, C5, C9) -/

/-- Claim C2, counterexample: with the key for session `s1` registered and an
envelope whose tag does not verify, `decryptResponse` fails and the entry for
`s1` is still in the store — the key is not removed "regardless of whether
the subsequent symmetric decryption succeeds or fails". -/
theorem C2_counterexample :
    (decryptResponse demoStore1 demoRespBad).2
      = .error "Failed to decrypt response payload".data ∧
    storeGet (decryptResponse demoStore1 demoRespBad).1 "s1".data
      = some demoKey := ⟨rfl, rfl⟩

/-- Claim C2 (corrected): `decryptResponse` removes the session's key only
when the symmetric decryption succeeds; on any failure the try block is
aborted before the `delete` line, so the entry remains. -/
theorem C2_key_removed_only_on_success (store : AESKeyStore)
    (resp : EncryptedResponse) (key : Str)
    (hkey : storeGet store resp.sessionId = some key) :
    (∀ v, (decryptResponse store resp).2 = .ok v →
      (decryptResponse store resp).1 = storeDelete store resp.sessionId ∧
      storeGet (decryptResponse store resp).1 resp.sessionId = none) ∧
    (∀ e, (decryptResponse store resp).2 = .error e →
      (decryptResponse store resp).1 = store) := by
  unfold decryptResponse decryptResponseInner
  rw [hkey]
  dsimp only
  cases hd : decryptPayload resp.encryptedData key with
  | error e0 =>
      dsimp only
      refine ⟨?_, ?_⟩
      · intro v hv
        simp [Except.mapError] at hv
      · intro e he
        rfl
  | ok v0 =>
      dsimp only
      refine ⟨?_, ?_⟩
      · intro v hv
        exact ⟨rfl, storeGet_storeDelete_self store resp.sessionId⟩
      · intro e he
        simp [Except.mapError] at he

/-- Claim C2, witness: the theorem applied to the concrete failing call of
the counterexample. -/
theorem C2_witness :
    storeGet demoStore1 ("s1".data) = some demoKey ∧
    (decryptResponse demoStore1 demoRespBad).1 = demoStore1 :=
  ⟨rfl, (C2_key_removed_only_on_success demoStore1 demoRespBad demoKey
    rfl).2 _ rfl⟩

/-- Claim C3, counterexample: an unknown session id makes the try block of
`decryptResponse` fail with the unknown-session error, but the error that
reaches the caller is the generic `'Failed to decrypt response payload'`,
which differs from it — the failure kind did not propagate unchanged. -/
theorem C3_counterexample :
    (decryptResponseInner [] demoRespUnknown).2
      = .error (unknownSessionMsg ("s1".data)) ∧
    (decryptResponse [] demoRespUnknown).2
      = .error "Failed to decrypt response payload".data ∧
    "Failed to decrypt response payload".data
      ≠ unknownSessionMsg ("s1".data) := ⟨rfl, rfl, by decide⟩

/-- Claim C3 (corrected): every failure of `decryptResponse` — unknown
session, authentication failure and JSON failure alike — reaches the caller
coerced to the one generic error `'Failed to decrypt response payload'`. -/
theorem C3_decryptResponse_error_coerced (store : AESKeyStore)
    (resp : EncryptedResponse) (e : Str)
    (h : (decryptResponse store resp).2 = .error e) :
    e = "Failed to decrypt response payload".data := by
  unfold decryptResponse at h
  cases hinner : (decryptResponseInner store resp).2 with
  | ok v =>
      rw [hinner] at h
      simp [Except.mapError] at h
  | error e2 =>
      rw [hinner] at h
      simp [Except.mapError] at h
      exact h.symm

/-- Claim C3, witness: the theorem applied to the concrete unknown-session
call of the counterexample. -/
theorem C3_witness :
    (decryptResponse [] demoRespUnknown).2
      = .error "Failed to decrypt response payload".data ∧
    "Failed to decrypt response payload".data
      = "Failed to decrypt response payload".data :=
  ⟨rfl, C3_decryptResponse_error_coerced [] demoRespUnknown _ rfl⟩

set_option maxRecDepth 16384 in
/-- Claim C9, counterexample: after a successful `decryptResponse` for
session `s1`, a second call for the same session fails — but with the
generic coerced error, not with the distinct unknown-session failure the
claim names. -/
theorem C9_counterexample :
    (decryptResponse demoStore1 demoRespGood).2 = .ok (Json.num 1) ∧
    (decryptResponse (decryptResponse demoStore1 demoRespGood).1
      demoRespGood).2 = .error "Failed to decrypt response payload".data ∧
    "Failed to decrypt response payload".data
      ≠ unknownSessionMsg ("s1".data) := ⟨rfl, rfl, by decide⟩

/-- Claim C9 (corrected): after a successful `decryptResponse` the entry for
the session id is gone, and a second call for the same session id fails — it
never silently succeeds — but the failure surfaces as the generic
`'Failed to decrypt response payload'` error produced by the catch, not as a
distinct unknown-session failure. -/
theorem C9_single_use (store : AESKeyStore) (resp : EncryptedResponse)
    (v : Json) (h : (decryptResponse store resp).2 = .ok v) :
    storeGet (decryptResponse store resp).1 resp.sessionId = none ∧
    (decryptResponse (decryptResponse store resp).1 resp).2
      = .error "Failed to decrypt response payload".data := by
  unfold decryptResponse decryptResponseInner at h ⊢
  cases hget : storeGet store resp.sessionId with
  | none =>
      rw [hget] at h
      dsimp only at h
      simp [Except.mapError] at h
  | some key =>
      rw [hget] at h
      dsimp only at h ⊢
      cases hd : decryptPayload resp.encryptedData key with
      | error e0 =>
          rw [hd] at h
          simp [Except.mapError] at h
      | ok v0 =>
          dsimp only
          refine ⟨storeGet_storeDelete_self store resp.sessionId, ?_⟩
          rw [storeGet_storeDelete_self store resp.sessionId]
          rfl

set_option maxRecDepth 16384 in
/-- Claim C9, witness: the theorem applied to the concrete successful call of
the counterexample. -/
theorem C9_witness :
    (decryptResponse demoStore1 demoRespGood).2 = .ok (Json.num 1) ∧
    (storeGet (decryptResponse demoStore1 demoRespGood).1 ("s1".data) = none ∧
     (decryptResponse (decryptResponse demoStore1 demoRespGood).1
       demoRespGood).2
       = .error "Failed to decrypt response payload".data) :=
  ⟨rfl, C9_single_use demoStore1 demoRespGood (Json.num 1) rfl⟩

def demoStoreOld : AESKeyStore := [("s1".data, "oldkey".data)]

/-- Claim C5, counterexample: with a live entry for session `s1` already in
the store, `encryptRequest` for the same session id replaces the mapping
with the new key and reports no error — the collision is silently masked. -/
theorem C5_counterexample :
    storeGet demoStoreOld ("s1".data) = some ("oldkey".data) ∧
    storeGet (encryptRequest demoStoreOld ("s1".data) demoPub (Json.num 1)
      none demoKeyRaw demoIv).1 ("s1".data) = some demoKey ∧
    demoKey ≠ "oldkey".data ∧
    (match (encryptRequest demoStoreOld ("s1".data) demoPub (Json.num 1)
      none demoKeyRaw demoIv).2 with
     | .ok _ => True
     | .error _ => False) := ⟨rfl, rfl, by decide, trivial⟩

/-- Claim C5 (corrected): the store keeps at most one record per session id
(the count for the id is exactly one after registration, and other ids are
untouched), but the registration performed by `encryptRequest` silently
overwrites any existing live entry for the same session id — no collision is
surfaced. -/
theorem C5_registration_overwrites (store : AESKeyStore) (sid pk : Str)
    (p : Json) (pt : Option Str) (raw iv : List Nat) :
    storeGet (encryptRequest store sid pk p pt raw iv).1 sid
      = some (generateEncryptionKey raw) ∧
    ((encryptRequest store sid pk p pt raw iv).1.countP
      (fun q => decide (q.1 = sid))) = 1 ∧
    (∀ sid2, sid2 ≠ sid →
      storeGet (encryptRequest store sid pk p pt raw iv).1 sid2
        = storeGet store sid2) := by
  have hstore : (encryptRequest store sid pk p pt raw iv).1
      = storeSet store sid (generateEncryptionKey raw) := by
    unfold encryptRequest
    cases encryptPayload p (some (generateEncryptionKey raw)) raw iv with
    | error e => rfl
    | ok r =>
        cases importRSAPublicKeyFromBase64 pk with
        | error e => rfl
        | ok k2 => rfl
  rw [hstore]
  exact ⟨storeGet_storeSet_self store sid _,
    storeSet_count_one store sid _,
    fun sid2 h2 => storeGet_storeSet_other store sid _ sid2 h2⟩

/-! ### Claims about key handling in the cipher engine and key wrap
(C10, C1) -/

def demoResSome : EncryptResult :=
  okOr (encryptPayload (Json.num 1) (some demoKey) demoKeyRaw demoIv)

def demoResEmptyKey : EncryptResult :=
  okOr (encryptPayload (Json.num 1) (some []) demoKeyRaw demoIv)

set_option maxRecDepth 16384 in
/-- Claim C10, counterexample: `encryptPayload` called *with* a key — the
empty string — does not return the supplied key: JavaScript `||` treats the
empty string as absent, so a fresh key is generated and returned instead. -/
theorem C10_counterexample :
    encryptPayload (Json.num 1) (some []) demoKeyRaw demoIv
      = .ok demoResEmptyKey ∧
    demoResEmptyKey.encryptionKey = btoa demoKeyRaw ∧
    btoa demoKeyRaw ≠ ([] : Str) := ⟨rfl, rfl, by decide⟩

/-- Claim C10 (corrected): `encryptPayload`'s key parameter is optional;
without a key it generates and returns a fresh key, and with a *non-empty*
key it returns exactly the supplied key — but an empty-string key is treated
as absent by the `||` default. -/
theorem C10_key_optional (p : Json) (raw iv : List Nat) (k : Str)
    (rn rs : EncryptResult) (hk : k ≠ [])
    (hn : encryptPayload p none raw iv = .ok rn)
    (hs : encryptPayload p (some k) raw iv = .ok rs) :
    rn.encryptionKey = generateEncryptionKey raw ∧ rs.encryptionKey = k := by
  constructor
  · unfold encryptPayload at hn
    dsimp only at hn
    cases hi : importKey (generateEncryptionKey raw) with
    | none => rw [hi] at hn; exact absurd hn (by simp)
    | some kk =>
        rw [hi] at hn
        injection hn with h
        rw [← h]
  · unfold encryptPayload at hs
    dsimp only at hs
    rw [if_neg hk] at hs
    cases hi : importKey k with
    | none => rw [hi] at hs; exact absurd hs (by simp)
    | some kk =>
        rw [hi] at hs
        injection hs with h
        rw [← h]

set_option maxRecDepth 16384 in
/-- Claim C10, witness: the theorem applied to the concrete calls with no
key and with the concrete non-empty key. -/
theorem C10_witness :
    demoKey ≠ ([] : Str) ∧
    (demoResNone.encryptionKey = generateEncryptionKey demoKeyRaw ∧
     demoResSome.encryptionKey = demoKey) :=
  ⟨by decide, C10_key_optional (Json.num 1) demoKeyRaw demoIv demoKey
    demoResNone demoResSome (by decide) rfl rfl⟩

def demoEnv : EncryptedRequest :=
  { sessionId := "s1".data,
    encryptedData := demoResSome.encryptedData,
    encryptedKey := btoa (rsaOaepEncrypt demoDer (utf8Encode demoKey)),
    payloadType := none }

set_option maxRecDepth 16384 in
/-- Claim C1, counterexample: the envelope produced by `encryptRequest`
carries as `encryptedKey` the RSA wrap of the *UTF-8 text of the key's
base64 encoding* — and that differs from the wrap of the raw 32 key
bytes, which is what the claim says is encrypted. -/
theorem C1_counterexample :
    (encryptRequest [] ("s1".data) demoPub (Json.num 1) none demoKeyRaw
      demoIv).2 = .ok demoEnv ∧
    demoEnv.encryptedKey = btoa (rsaOaepEncrypt demoDer (utf8Encode demoKey)) ∧
    btoa (rsaOaepEncrypt demoDer (utf8Encode demoKey))
      ≠ btoa (rsaOaepEncrypt demoDer demoKeyRaw) := ⟨rfl, rfl, by decide⟩

/-- Claim C1 (corrected): the RSA-OAEP/SHA-256 wrapping step of
`encryptRequest` submits to the RSA primitive the UTF-8 bytes of the AES
key's base64 *text* (`encryptWithRSA` text-encodes its string argument), not
the raw 32 key bytes; it is the standalone `encryptAESKey` utility that
wraps the raw decoded key bytes. -/
theorem C1_wrapped_bytes (store : AESKeyStore) (sid pk : Str) (p : Json)
    (pt : Option Str) (raw iv : List Nat) (der : List Nat)
    (env : EncryptedRequest)
    (hrawb : ∀ b ∈ raw, b < 256)
    (himp : importRSAPublicKeyFromBase64 pk = .ok der)
    (henv : (encryptRequest store sid pk p pt raw iv).2 = .ok env) :
    env.encryptedKey
      = btoa (rsaOaepEncrypt der (utf8Encode (generateEncryptionKey raw))) ∧
    (∀ der2, importPublicKey pk = .ok der2 →
      encryptAESKey (generateEncryptionKey raw) pk
        = .ok (btoa (rsaOaepEncrypt der2 raw))) := by
  constructor
  · unfold encryptRequest at henv
    cases he : encryptPayload p (some (generateEncryptionKey raw)) raw iv with
    | error e0 =>
        rw [he] at henv
        exact absurd henv (by simp)
    | ok r =>
        rw [he, himp] at henv
        dsimp only at henv
        injection henv with h
        rw [← h]
        rfl
  · intro der2 himp2
    have ha : atob (generateEncryptionKey raw) = some raw :=
      atob_btoa raw hrawb
    unfold encryptAESKey
    rw [ha]
    unfold encryptWithPublicKey
    rw [himp2]

set_option maxRecDepth 16384 in
/-- Claim C1, witness: the theorem applied to the concrete request of the
counterexample. -/
theorem C1_witness :
    (∀ b ∈ demoKeyRaw, b < 256) ∧
    importRSAPublicKeyFromBase64 demoPub = .ok demoDer ∧
    (encryptRequest [] ("s1".data) demoPub (Json.num 1) none demoKeyRaw
      demoIv).2 = .ok demoEnv ∧
    (demoEnv.encryptedKey
      = btoa (rsaOaepEncrypt demoDer
          (utf8Encode (generateEncryptionKey demoKeyRaw))) ∧
     (∀ der2, importPublicKey demoPub = .ok der2 →
       encryptAESKey (generateEncryptionKey demoKeyRaw) demoPub
         = .ok (btoa (rsaOaepEncrypt der2 demoKeyRaw)))) :=
  ⟨by decide, rfl, rfl,
   C1_wrapped_bytes [] ("s1".data) demoPub (Json.num 1) none demoKeyRaw
     demoIv demoDer demoEnv (by decide) rfl rfl⟩

def isB64OrPad (c : Char) : Bool := b64Chars.contains c || c = '='

theorem b64OrPad_ne_dash (c : Char) (h : isB64OrPad c = true) : c ≠ '-' := by
  intro hc
  subst hc
  exact absurd h (by decide)

theorem b64Chars_not_ws : ∀ c ∈ b64Chars, isJsWs c = false := by decide

theorem b64OrPad_not_ws (c : Char) (h : isB64OrPad c = true) :
    isJsWs c = false := by
  unfold isB64OrPad at h
  rcases Bool.or_eq_true_iff.mp h with h1 | h2
  · have hmem : c ∈ b64Chars := by simpa using h1
    exact b64Chars_not_ws c hmem
  · have : c = '=' := by simpa using h2
    subst this
    decide

theorem isPrefixOf_append (l t : Str) : l.isPrefixOf (l ++ t) = true := by
  induction l with
  | nil => simp [List.isPrefixOf]
  | cons c cs ih => simp [List.isPrefixOf, ih]

theorem replaceFirst_at_head (pat t : Str) (hne : pat ≠ []) :
    replaceFirst (pat ++ t) pat = t := by
  cases pat with
  | nil => exact absurd rfl hne
  | cons p ps =>
      have h1 : (p :: ps).isPrefixOf ((p :: ps) ++ t) = true :=
        isPrefixOf_append _ _
      have h2 : ((p :: ps) ++ t).drop (p :: ps).length = t :=
        List.drop_left _ _
      rw [List.cons_append] at h1 h2 ⊢
      simp only [replaceFirst]
      rw [if_pos h1, h2]

theorem replaceFirst_no_head (pat : Str) (p0 : Char) (ptl : Str)
    (hpat : pat = p0 :: ptl) :
    ∀ (s u : Str), (∀ c ∈ s, c ≠ p0) →
      replaceFirst (s ++ u) pat = s ++ replaceFirst u pat := by
  intro s
  induction s with
  | nil => intro u _; simp
  | cons c cs ih =>
      intro u hs
      have hc : c ≠ p0 := hs c (by simp)
      rw [List.cons_append]
      simp only [replaceFirst]
      rw [if_neg (by
        rw [hpat]
        simp [List.isPrefixOf]
        intro hh
        exact absurd hh.symm hc)]
      rw [ih u (fun d hd => hs d (by simp [hd])), List.cons_append]

theorem replaceFirst_all_ne (s pat : Str) (p0 : Char) (ptl : Str)
    (hpat : pat = p0 :: ptl) (hs : ∀ c ∈ s, c ≠ p0) :
    replaceFirst s pat = s := by
  have hx := replaceFirst_no_head pat p0 ptl hpat s [] hs
  rw [List.append_nil] at hx
  rw [hx]
  simp [replaceFirst]

theorem filter_no_ws (s : Str) (h : ∀ c ∈ s, isJsWs c = false) :
    s.filter (fun c => !isJsWs c) = s := by
  apply List.filter_eq_self.mpr
  intro a ha
  rw [h a ha]
  rfl

set_option maxRecDepth 2048 in
/-- Claim C8: importing an SPKI RSA key wrapped in PEM delimiters (header,
footer, embedded newlines) through the RSA utility's `importPublicKey`
succeeds and yields the same imported key as importing the raw base64 DER:
the import strips the PEM header/footer and all whitespace. -/
theorem C8_pem_equals_raw (s s1 s2 : Str) (der : List Nat)
    (hsplit : s = s1 ++ s2)
    (halpha : ∀ c ∈ s, isB64OrPad c = true)
    (hdec : atob s = some der) :
    importPublicKey (pemHeader ++ '\n' :: s1 ++ '\n' :: s2 ++ '\n' ::
      pemFooter) = .ok der ∧
    importPublicKey s = .ok der := by
  have hdash : ∀ c ∈ s, c ≠ '-' :=
    fun c hc => b64OrPad_ne_dash c (halpha c hc)
  have hws : ∀ c ∈ s, isJsWs c = false :=
    fun c hc => b64OrPad_not_ws c (halpha c hc)
  have hdash1 : ∀ c ∈ s1, c ≠ '-' :=
    fun c hc => hdash c (by rw [hsplit]; exact List.mem_append_left _ hc)
  have hdash2 : ∀ c ∈ s2, c ≠ '-' :=
    fun c hc => hdash c (by rw [hsplit]; exact List.mem_append_right _ hc)
  have hws1 : ∀ c ∈ s1, isJsWs c = false :=
    fun c hc => hws c (by rw [hsplit]; exact List.mem_append_left _ hc)
  have hws2 : ∀ c ∈ s2, isJsWs c = false :=
    fun c hc => hws c (by rw [hsplit]; exact List.mem_append_right _ hc)
  constructor
  · unfold importPublicKey
    have hstep1 : replaceFirst (pemHeader ++ '\n' :: s1 ++ '\n' :: s2 ++
        '\n' :: pemFooter) pemHeader
        = '\n' :: s1 ++ '\n' :: s2 ++ '\n' :: pemFooter :=
      replaceFirst_at_head pemHeader _ (by decide)
    rw [hstep1]
    have hshape : '\n' :: s1 ++ '\n' :: s2 ++ '\n' :: pemFooter
        = (('\n' :: s1) ++ ('\n' :: s2) ++ ['\n']) ++ pemFooter := by
      simp
    rw [hshape]
    have hu : ∀ c ∈ ('\n' :: s1) ++ ('\n' :: s2) ++ ['\n'], c ≠ '-' := by
      intro c hc
      by_cases hcn : c = '\n'
      · subst hcn; decide
      · have hmem : c ∈ s1 ∨ c ∈ s2 := by
          simp only [List.mem_append, List.mem_cons,
            List.mem_singleton] at hc
          tauto
        rcases hmem with h | h
        · exact hdash1 c h
        · exact hdash2 c h
    have hstep2 := replaceFirst_no_head pemFooter '-'
      ("----END PUBLIC KEY-----".data) (by decide)
      (('\n' :: s1) ++ ('\n' :: s2) ++ ['\n']) pemFooter hu
    have hftr : replaceFirst pemFooter pemFooter = [] := by
      have hx := replaceFirst_at_head pemFooter [] (by decide)
      rwa [List.append_nil] at hx
    rw [hstep2, hftr, List.append_nil]
    rw [List.filter_append, List.filter_append]
    rw [List.filter_cons_of_neg (by decide), List.filter_cons_of_neg
      (by decide)]
    rw [filter_no_ws s1 hws1, filter_no_ws s2 hws2]
    rw [show List.filter (fun c => !isJsWs c) ['\n'] = [] from by decide]
    rw [List.append_nil, ← hsplit]
    dsimp only
    rw [hdec]
  · unfold importPublicKey
    have h1 : replaceFirst s pemHeader = s :=
      replaceFirst_all_ne s pemHeader '-'
        ("----BEGIN PUBLIC KEY-----".data) (by decide) hdash
    have h2 : replaceFirst s pemFooter = s :=
      replaceFirst_all_ne s pemFooter '-'
        ("----END PUBLIC KEY-----".data) (by decide) hdash
    rw [h1, h2, filter_no_ws s hws]
    dsimp only
    rw [hdec]


set_option maxRecDepth 2048 in
/-- Claim C8, witness: the theorem applied to a concrete base64 DER string
split across an embedded newline. -/
theorem C8_witness :
    ("AAAA".data : Str) = "AA".data ++ "AA".data ∧
    (∀ c ∈ ("AAAA".data : Str), isB64OrPad c = true) ∧
    atob "AAAA".data = some [0, 0, 0] ∧
    (importPublicKey (pemHeader ++ '\n' :: "AA".data ++ '\n' :: "AA".data ++
      '\n' :: pemFooter) = .ok [0, 0, 0] ∧
     importPublicKey "AAAA".data = .ok [0, 0, 0]) :=
  ⟨by decide, by decide, by decide,
   C8_pem_equals_raw "AAAA".data "AA".data "AA".data [0, 0, 0]
     (by decide) (by decide) (by decide)⟩


/-! ### C4, C6, C7: the symmetric engine as a whole -/

theorem keystream_length (key iv : List Nat) (n : Nat) :
    (keystream key iv n).length = n := by simp [keystream]

theorem gcmTag_lt (key iv ct : List Nat) : ∀ b ∈ gcmTag key iv ct, b < 256 := by
  intro b hb
  simp [gcmTag] at hb
  obtain ⟨i, _, hi⟩ := hb
  rw [← hi]
  unfold gcmTagByte
  omega

theorem keystream_lt (key iv : List Nat) (n : Nat) :
    ∀ b ∈ keystream key iv n, b < 256 := by
  intro b hb
  simp [keystream] at hb
  obtain ⟨i, _, hi⟩ := hb
  rw [← hi]
  unfold keystreamByte
  omega

theorem zipWith_xor_lt (l1 l2 : List Nat) (h1 : ∀ a ∈ l1, a < 256)
    (h2 : ∀ a ∈ l2, a < 256) :
    ∀ x ∈ List.zipWith (fun a b => a ^^^ b) l1 l2, x < 256 := by
  induction l1 generalizing l2 with
  | nil => intro x hx; simp at hx
  | cons a l1t ih =>
      intro x hx
      cases l2 with
      | nil => simp at hx
      | cons b l2t =>
          simp at hx
          rcases hx with hx | hx
          · rw [hx]
            have ha : a < 2 ^ 8 := h1 a (by simp)
            have hb : b < 2 ^ 8 := h2 b (by simp)
            calc a ^^^ b < 2 ^ 8 := Nat.xor_lt_two_pow ha hb
              _ = 256 := by norm_num
          · exact ih l2t (fun c hc => h1 c (List.mem_cons_of_mem _ hc))
              (fun c hc => h2 c (List.mem_cons_of_mem _ hc)) x hx

theorem zipWith_xor_cancel (pt : List Nat) :
    ∀ ks : List Nat, ks.length = pt.length →
      List.zipWith (fun c s => c ^^^ s)
        (List.zipWith (fun p s => p ^^^ s) pt ks) ks = pt := by
  induction pt with
  | nil => intro ks h; simp
  | cons p pts ih =>
      intro ks h
      cases ks with
      | nil => simp at h
      | cons k kst =>
          simp only [List.zipWith]
          rw [Nat.xor_assoc, Nat.xor_self, Nat.xor_zero]
          rw [ih kst (by simpa using h)]

theorem ct_length (key iv pt : List Nat) :
    (List.zipWith (fun p s => p ^^^ s) pt (keystream key iv pt.length)).length
      = pt.length := by
  rw [List.length_zipWith, keystream_length]
  omega

theorem subtleEncryptGCM_length (key iv pt : List Nat) :
    (subtleEncryptGCM key iv pt).length = pt.length + 16 := by
  unfold subtleEncryptGCM
  rw [List.length_append, ct_length]
  simp [gcmTag]

theorem subtleEncryptGCM_lt (key iv pt : List Nat)
    (hpt : ∀ b ∈ pt, b < 256) :
    ∀ b ∈ subtleEncryptGCM key iv pt, b < 256 := by
  intro b hb
  unfold subtleEncryptGCM at hb
  rw [List.mem_append] at hb
  rcases hb with hb | hb
  · exact zipWith_xor_lt pt (keystream key iv pt.length) hpt
      (keystream_lt key iv pt.length) b hb
  · exact gcmTag_lt key iv _ b hb

/-- Decrypting an encryption under the same key and IV authenticates and
recovers the plaintext. -/
theorem subtleDecrypt_encrypt (key iv pt : List Nat) :
    subtleDecryptGCM key iv (subtleEncryptGCM key iv pt) = some pt := by
  have hct := ct_length key iv pt
  have hlen := subtleEncryptGCM_length key iv pt
  unfold subtleDecryptGCM
  rw [if_neg (by omega)]
  have htake : (subtleEncryptGCM key iv pt).take
      ((subtleEncryptGCM key iv pt).length - 16)
      = List.zipWith (fun p s => p ^^^ s) pt (keystream key iv pt.length) := by
    rw [hlen]
    unfold subtleEncryptGCM
    rw [show pt.length + 16 - 16 = pt.length from by omega]
    exact List.take_left' hct
  have hdrop : (subtleEncryptGCM key iv pt).drop
      ((subtleEncryptGCM key iv pt).length - 16)
      = gcmTag key iv
          (List.zipWith (fun p s => p ^^^ s) pt (keystream key iv pt.length)) := by
    rw [hlen]
    unfold subtleEncryptGCM
    rw [show pt.length + 16 - 16 = pt.length from by omega]
    exact List.drop_left' hct
  rw [htake, hdrop, if_pos rfl]
  rw [hct]
  rw [zipWith_xor_cancel pt (keystream key iv pt.length)
    (keystream_length key iv pt.length)]

theorem generateEncryptionKey_ne_nil (raw : List Nat) (hraw : raw.length = 32) :
    generateEncryptionKey raw ≠ [] := by
  intro h
  have hl := btoa_length raw
  rw [hraw] at hl
  rw [show generateEncryptionKey raw = btoa raw from rfl] at h
  rw [h] at hl
  simp at hl

theorem importKey_generateEncryptionKey (raw : List Nat)
    (hraw : raw.length = 32) (hrawb : ∀ b ∈ raw, b < 256) :
    importKey (generateEncryptionKey raw) = some raw := by
  unfold importKey
  rw [show generateEncryptionKey raw = btoa raw from rfl, atob_btoa raw hrawb]
  dsimp only
  rw [if_pos (Or.inr (Or.inr hraw))]

/-- The envelope produced by `encryptPayload` under a generated key. -/
theorem encryptPayload_key_ok (p : Json) (raw iv fresh : List Nat)
    (hraw : raw.length = 32) (hrawb : ∀ b ∈ raw, b < 256) :
    encryptPayload p (some (generateEncryptionKey raw)) fresh iv
      = .ok ⟨btoa (iv ++ subtleEncryptGCM raw iv (utf8Encode (stringify p))),
             generateEncryptionKey raw⟩ := by
  unfold encryptPayload
  dsimp only
  rw [if_neg (generateEncryptionKey_ne_nil raw hraw)]
  rw [importKey_generateEncryptionKey raw hraw hrawb]

/-- C6: Round trip — for every JSON payload and every key produced by the
key generator, decrypting the envelope produced by `encryptPayload` under
that key with the same key returns the original payload. -/
theorem C6_roundtrip (p : Json) (raw iv fresh : List Nat) (r : EncryptResult)
    (hraw : raw.length = 32) (hrawb : ∀ b ∈ raw, b < 256)
    (hiv : iv.length = 12) (hivb : ∀ b ∈ iv, b < 256)
    (henc : encryptPayload p (some (generateEncryptionKey raw)) fresh iv
      = .ok r) :
    decryptPayload r.encryptedData r.encryptionKey = .ok p := by
  rw [encryptPayload_key_ok p raw iv fresh hraw hrawb] at henc
  injection henc with h1
  subst h1
  dsimp only
  unfold decryptPayload
  rw [importKey_generateEncryptionKey raw hraw hrawb]
  have hcomb : ∀ b ∈ iv ++ subtleEncryptGCM raw iv
      (utf8Encode (stringify p)), b < 256 := by
    intro b hb
    rw [List.mem_append] at hb
    rcases hb with hb | hb
    · exact hivb b hb
    · exact subtleEncryptGCM_lt raw iv _ (utf8Encode_lt _) b hb
  rw [atob_btoa _ hcomb]
  dsimp only [ENCRYPTION_CONFIG]
  rw [List.take_left' hiv, List.drop_left' hiv]
  rw [subtleDecrypt_encrypt raw iv (utf8Encode (stringify p))]
  dsimp only
  rw [utf8Decode_encode, jsonParse_stringify]

/-- C7: Format contract — the envelope returned by `encryptPayload` is
IV ‖ ciphertext ‖ tag with a 12-byte IV prefix, a ciphertext of the
payload's UTF-8 JSON length, a 16-byte tag, total decoded length
12 + len + 16; and the generated key is a base64 string decoding to
exactly 32 bytes. -/
theorem C7_envelope_format (p : Json) (raw iv fresh : List Nat)
    (r : EncryptResult)
    (hraw : raw.length = 32) (hrawb : ∀ b ∈ raw, b < 256)
    (hiv : iv.length = 12) (hivb : ∀ b ∈ iv, b < 256)
    (henc : encryptPayload p (some (generateEncryptionKey raw)) fresh iv
      = .ok r) :
    ∃ ct tag : List Nat,
      atob r.encryptedData = some (iv ++ (ct ++ tag)) ∧
      ct.length = (utf8Encode (stringify p)).length ∧
      tag.length = 16 ∧
      (iv ++ (ct ++ tag)).length
        = 12 + (utf8Encode (stringify p)).length + 16 ∧
      (iv ++ (ct ++ tag)).take 12 = iv ∧
      atob r.encryptionKey = some raw ∧ raw.length = 32 := by
  rw [encryptPayload_key_ok p raw iv fresh hraw hrawb] at henc
  injection henc with h1
  subst h1
  dsimp only
  have hcomb : ∀ b ∈ iv ++ subtleEncryptGCM raw iv
      (utf8Encode (stringify p)), b < 256 := by
    intro b hb
    rw [List.mem_append] at hb
    rcases hb with hb | hb
    · exact hivb b hb
    · exact subtleEncryptGCM_lt raw iv _ (utf8Encode_lt _) b hb
  refine ⟨List.zipWith (fun a b => a ^^^ b) (utf8Encode (stringify p))
      (keystream raw iv (utf8Encode (stringify p)).length),
    gcmTag raw iv (List.zipWith (fun a b => a ^^^ b)
      (utf8Encode (stringify p))
      (keystream raw iv (utf8Encode (stringify p)).length)),
    ?_, ?_, ?_, ?_, ?_, ?_, hraw⟩
  · rw [atob_btoa _ hcomb]
    rfl
  · exact ct_length raw iv _
  · simp [gcmTag]
  · simp only [List.length_append, ct_length, hiv, gcmTag,
      List.length_map, List.length_range]
    omega
  · exact List.take_left' hiv
  · exact atob_btoa raw hrawb

/-- C4: For every importable key and base64-decodable envelope, the
symmetric decrypt fails whenever the modelled GCM tag check fails and
whenever the authenticated plaintext is not valid JSON, never returning
unauthenticated or unparsable data; both failures surface as the same
generic error. -/
theorem C4_decrypt_failures (env kb64 : Str) (kb cb : List Nat)
    (hk : importKey kb64 = some kb) (henv : atob env = some cb) :
    (subtleDecryptGCM kb (cb.take 12) (cb.drop 12) = none →
      decryptPayload env kb64 = .error "Failed to decrypt payload".data) ∧
    (∀ pt, subtleDecryptGCM kb (cb.take 12) (cb.drop 12) = some pt →
      jsonParse (utf8Decode pt) = none →
      decryptPayload env kb64 = .error "Failed to decrypt payload".data) ∧
    (∀ v, decryptPayload env kb64 = .ok v →
      ∃ pt, subtleDecryptGCM kb (cb.take 12) (cb.drop 12) = some pt ∧
        jsonParse (utf8Decode pt) = some v) := by
  unfold decryptPayload
  rw [hk, henv]
  dsimp only [ENCRYPTION_CONFIG]
  refine ⟨?_, ?_, ?_⟩
  · intro hd
    rw [hd]
  · intro pt hd hj
    rw [hd]
    dsimp only
    rw [hj]
  · intro v hv
    cases hd : subtleDecryptGCM kb (cb.take 12) (cb.drop 12) with
    | none => rw [hd] at hv; exact absurd hv (by simp)
    | some pt =>
        rw [hd] at hv
        dsimp only at hv
        cases hj : jsonParse (utf8Decode pt) with
        | none => rw [hj] at hv; exact absurd hv (by simp)
        | some w =>
            rw [hj] at hv
            dsimp only at hv
            injection hv with hw
            exact ⟨pt, rfl, by rw [hj, hw]⟩

set_option maxRecDepth 16384 in
/-- C4-counterexample: under the demo key, a 40-byte all-zero envelope fails
the tag check and an authenticated envelope whose plaintext `x` is not JSON
fails the parse — and `decryptPayload` reports the identical generic
`Failed to decrypt payload` error for both, so the two failure kinds are
not distinguishable as the spec requires. -/
theorem C4_counterexample :
    subtleDecryptGCM demoKeyRaw ((List.replicate 40 0).take 12)
      ((List.replicate 40 0).drop 12) = none ∧
    subtleDecryptGCM demoKeyRaw demoIv
      (subtleEncryptGCM demoKeyRaw demoIv (utf8Encode ['x']))
      = some (utf8Encode ['x']) ∧
    jsonParse (utf8Decode (utf8Encode ['x'])) = none ∧
    decryptPayload demoBadTagEnv demoKey
      = .error "Failed to decrypt payload".data ∧
    decryptPayload demoBadJsonEnv demoKey
      = .error "Failed to decrypt payload".data :=
  ⟨rfl, rfl, rfl, rfl, rfl⟩

set_option maxRecDepth 16384 in
/-- C4-witness: the failure-behaviour theorem instantiated at the demo key
and the all-zero envelope. -/
theorem C4_witness :
    importKey demoKey = some demoKeyRaw ∧
    atob demoBadTagEnv = some (List.replicate 40 0) ∧
    ((subtleDecryptGCM demoKeyRaw ((List.replicate 40 0).take 12)
        ((List.replicate 40 0).drop 12) = none →
      decryptPayload demoBadTagEnv demoKey
        = .error "Failed to decrypt payload".data) ∧
     (∀ pt, subtleDecryptGCM demoKeyRaw ((List.replicate 40 0).take 12)
        ((List.replicate 40 0).drop 12) = some pt →
      jsonParse (utf8Decode pt) = none →
      decryptPayload demoBadTagEnv demoKey
        = .error "Failed to decrypt payload".data) ∧
     (∀ v, decryptPayload demoBadTagEnv demoKey = .ok v →
      ∃ pt, subtleDecryptGCM demoKeyRaw ((List.replicate 40 0).take 12)
          ((List.replicate 40 0).drop 12) = some pt ∧
        jsonParse (utf8Decode pt) = some v)) :=
  ⟨rfl, rfl, C4_decrypt_failures demoBadTagEnv demoKey demoKeyRaw
    (List.replicate 40 0) rfl rfl⟩

set_option maxRecDepth 16384 in
/-- C6-witness: the round trip instantiated at the demo key, demo IV and the
payload `1`. -/
theorem C6_witness :
    demoKeyRaw.length = 32 ∧ (∀ b ∈ demoKeyRaw, b < 256) ∧
    demoIv.length = 12 ∧ (∀ b ∈ demoIv, b < 256) ∧
    encryptPayload (Json.num 1) (some (generateEncryptionKey demoKeyRaw)) []
      demoIv = .ok demoRes ∧
    decryptPayload demoRes.encryptedData demoRes.encryptionKey
      = .ok (Json.num 1) :=
  ⟨rfl, by decide, rfl, by decide, rfl,
   C6_roundtrip (Json.num 1) demoKeyRaw demoIv [] demoRes rfl (by decide)
     rfl (by decide) rfl⟩

set_option maxRecDepth 16384 in
/-- C7-witness: the format contract instantiated at the demo key, demo IV
and the payload `1`. -/
theorem C7_witness :
    encryptPayload (Json.num 1) (some (generateEncryptionKey demoKeyRaw)) []
      demoIv = .ok demoRes ∧
    (∃ ct tag : List Nat,
      atob demoRes.encryptedData = some (demoIv ++ (ct ++ tag)) ∧
      ct.length = (utf8Encode (stringify (Json.num 1))).length ∧
      tag.length = 16 ∧
      (demoIv ++ (ct ++ tag)).length
        = 12 + (utf8Encode (stringify (Json.num 1))).length + 16 ∧
      (demoIv ++ (ct ++ tag)).take 12 = demoIv ∧
      atob demoRes.encryptionKey = some demoKeyRaw ∧
      demoKeyRaw.length = 32) :=
  ⟨rfl, C7_envelope_format (Json.num 1) demoKeyRaw demoIv [] demoRes rfl
    (by decide) rfl (by decide) rfl⟩

end CMS
